import Mathlib

set_option autoImplicit false

namespace FormHooks

/-!  A shallow embedding of the react-form-array hooks library
(src/drag.ts: `useFormDrag`, `useFormArray`, `useFormMap`, and the helpers
`areItemsCompatible` (array and map variants) and `getFixedItemsValues`).

Modelling conventions:
* JavaScript objects used as string-keyed records are modelled as association
  lists `List (K × A)`; property read is `recGet`, property assignment
  (`obj[k] = v`, which overwrites in place or appends a new key at the end,
  preserving JS enumeration order) is `recSet`.
* The identities produced by `generateKey` (strings `item-${UNIQUE_ID++}`)
  are modelled by the numeric counter value itself; the global counter is
  threaded explicitly.
* Item metadata objects, where a claim depends on their structure, are
  modelled by `Meta = List (String × MVal)` where `MVal` is a small model of
  JS values (including `undefined`, which is a first-class JS value).
* `T[] | undefined` parameters are `Option (List V)`; `===` on opaque values
  is `DecidableEq`.
-/

/-- A small model of JavaScript values stored in metadata objects:
`undefined`, numbers, strings and plain objects. -/
inductive MVal : Type where
  | undef : MVal
  | num : Nat → MVal
  | str : String → MVal
  | obj : List (String × MVal) → MVal

mutual

/-- Decidable equality of modelled JS values. -/
def MVal.deq : (a b : MVal) → Decidable (a = b)
  | .undef, .undef => isTrue rfl
  | .undef, .num _ => isFalse (fun h => MVal.noConfusion h)
  | .undef, .str _ => isFalse (fun h => MVal.noConfusion h)
  | .undef, .obj _ => isFalse (fun h => MVal.noConfusion h)
  | .num _, .undef => isFalse (fun h => MVal.noConfusion h)
  | .num m, .num n =>
    match Nat.decEq m n with
    | isTrue h => isTrue (by rw [h])
    | isFalse h => isFalse (fun e => h (by cases e; rfl))
  | .num _, .str _ => isFalse (fun h => MVal.noConfusion h)
  | .num _, .obj _ => isFalse (fun h => MVal.noConfusion h)
  | .str _, .undef => isFalse (fun h => MVal.noConfusion h)
  | .str _, .num _ => isFalse (fun h => MVal.noConfusion h)
  | .str s, .str t =>
    match String.decEq s t with
    | isTrue h => isTrue (by rw [h])
    | isFalse h => isFalse (fun e => h (by cases e; rfl))
  | .str _, .obj _ => isFalse (fun h => MVal.noConfusion h)
  | .obj _, .undef => isFalse (fun h => MVal.noConfusion h)
  | .obj _, .num _ => isFalse (fun h => MVal.noConfusion h)
  | .obj _, .str _ => isFalse (fun h => MVal.noConfusion h)
  | .obj f, .obj g =>
    match MVal.deqFields f g with
    | isTrue h => isTrue (by rw [h])
    | isFalse h => isFalse (fun e => h (by cases e; rfl))

/-- Decidable equality of modelled JS object field lists. -/
def MVal.deqFields : (f g : List (String × MVal)) → Decidable (f = g)
  | [], [] => isTrue rfl
  | [], _ :: _ => isFalse (fun h => List.noConfusion h)
  | _ :: _, [] => isFalse (fun h => List.noConfusion h)
  | (k, v) :: f, (l, w) :: g =>
    match String.decEq k l, MVal.deq v w, MVal.deqFields f g with
    | isTrue h1, isTrue h2, isTrue h3 => isTrue (by rw [h1, h2, h3])
    | isFalse h1, _, _ => isFalse (fun e => h1 (by cases e; rfl))
    | _, isFalse h2, _ => isFalse (fun e => h2 (by cases e; rfl))
    | _, _, isFalse h3 => isFalse (fun e => h3 (by cases e; rfl))

end

instance : DecidableEq MVal := MVal.deq

/-- A model of a JS metadata object: an association list of fields. -/
abbrev Meta : Type := List (String × MVal)

/-- JS property read `obj[k]`: the value at the first matching key, if any. -/
def recGet {K A : Type} [DecidableEq K] : List (K × A) → K → Option A
  | [], _ => none
  | (k, v) :: rest, q => if k = q then some v else recGet rest q

/-- JS property assignment `obj[k] = v`: overwrites the existing binding in
place, or appends the key at the end (JS enumeration order). -/
def recSet {K A : Type} [DecidableEq K] : List (K × A) → K → A → List (K × A)
  | [], q, v => [(q, v)]
  | (k, w) :: rest, q, v => if k = q then (q, v) :: rest else (k, w) :: recSet rest q v

/-- JS object spread `{...m, ...s}`: fields of `s` override fields of `m`. -/
def shallowMerge {K A : Type} [DecidableEq K] (m s : List (K × A)) : List (K × A) :=
  s.foldl (fun acc kv => recSet acc kv.1 kv.2) m

/-- `FormArrayItem<T, M>` of the array variant (fields `index`, `key`,
`value`, `meta`). -/
structure FormArrayItem (V M : Type) where
  index : Nat
  key : Nat
  value : V
  meta : M
deriving DecidableEq

/-- `FormMapItem<T, K, M>` of the map variant (fields `index`, `key`,
`mapKey`, `value`, `meta`, `duplicated`, `ignored`). -/
structure FormMapItem (V M : Type) where
  index : Nat
  key : Nat
  mapKey : String
  value : V
  meta : M
  duplicated : Bool
  ignored : Bool
deriving DecidableEq

/-- `list.every((x, i) => p i x)` starting at index `i0`. -/
def everyIdxFrom {A : Type} (p : Nat → A → Bool) : Nat → List A → Bool
  | _, [] => true
  | i, a :: rest => p i a && everyIdxFrom p (i + 1) rest

/-- `list.map((x, i) => f i x)` starting at index `i0`. -/
def mapIdxFrom {A B : Type} (f : Nat → A → B) : Nat → List A → List B
  | _, [] => []
  | i, a :: rest => f i a :: mapIdxFrom f (i + 1) rest

section ArrayVariant

variable {V M : Type} [DecidableEq V]

/-- `areItemsCompatible` (array variant, drag.ts lines 719-724):
`(values?.length ?? 0) === items.length &&
 items.every((item, i) => values?.[i] === item.value)`. -/
def areItemsCompatibleArray (values : Option (List V)) (items : List (FormArrayItem V M)) : Bool :=
  decide ((values.map List.length).getD 0 = items.length) &&
    everyIdxFrom (fun i item => decide ((values.bind fun vs => vs[i]?) = some item.value)) 0 items

/-- The rebuild branch of the reconciliation effect (drag.ts lines 419-424):
`(values ?? []).map((value, index) => ({key: generateKey(), index, value,
meta: initMetaRef.current?.(value) || {}}))`, with the key counter threaded
explicitly (`initMeta` absorbs the `|| {}` default). -/
def buildArrayItems (initMeta : V → M) : List V → Nat → Nat → List (FormArrayItem V M)
  | [], _, _ => []
  | v :: rest, idx, ctr => ⟨idx, ctr, v, initMeta v⟩ :: buildArrayItems initMeta rest (idx + 1) (ctr + 1)

/-- The reconciliation effect of `useFormArray` (drag.ts lines 417-428): if
the items are compatible with the external values, nothing happens;
otherwise the shadow is rebuilt with fresh keys and initialized metadata.
Returns the resulting items and key counter. -/
def reconcileArray (initMeta : V → M) (values : Option (List V))
    (items : List (FormArrayItem V M)) (counter : Nat) :
    List (FormArrayItem V M) × Nat :=
  if areItemsCompatibleArray values items then (items, counter)
  else (buildArrayItems initMeta (values.getD []) 0 counter,
    counter + (values.getD []).length)

end ArrayVariant

section ArrayUpdate

variable {V M : Type}

/-- The reindexing pass of `updateItems` (array variant, drag.ts lines
441-443): `items.map((item, index) => item.index === index ? item :
{...item, index})` (the conditional only preserves object identity; the
resulting fields are the same either way). -/
def reindexFrom : Nat → List (FormArrayItem V M) → List (FormArrayItem V M)
  | _, [] => []
  | i, item :: rest => { item with index := i } :: reindexFrom (i + 1) rest

/-- `updateItems` (array variant, drag.ts lines 439-449): reindexes the
items and derives the external value list `items.map(item => item.value)`
passed to the external setter on a hard update. -/
def updateItemsArray (items : List (FormArrayItem V M)) : List (FormArrayItem V M) × List V :=
  let fixed := reindexFrom 0 items
  (fixed, fixed.map (fun item => item.value))

end ArrayUpdate

section MapVariant

variable {V M : Type} [DecidableEq V]

/-- The loop of `areItemsCompatible` (map variant, drag.ts lines 1282-1296).
The JS `foundValues` record is modelled as a function `String → Bool`: it is
initialized with every key of `values` mapped to `false`, reads of absent
keys yield `undefined` (falsy, i.e. `false`), and the only writes set keys
that the `mapKey in values` guard has already confirmed to be keys of
`values`, so its key set always equals that of `values`.  Returns `none`
for an early `return false`, otherwise the final `foundValues`. -/
def compatLoopMap (values : Option (List (String × V))) :
    List (FormMapItem V M) → (String → Bool) → Option (String → Bool)
  | [], found => some found
  | item :: rest, found =>
    match values with
    | none => none
    | some vs =>
      if (recGet vs item.mapKey).isSome then
        if item.ignored then compatLoopMap values rest found
        else if found item.mapKey then none
        else if recGet vs item.mapKey = some item.value then
          compatLoopMap values rest (fun k => if k = item.mapKey then true else found k)
        else none
      else none

/-- `areItemsCompatible` (map variant, drag.ts lines 1278-1299): runs the
loop and then checks `Object.values(foundValues).every(found => found)`,
i.e. that every key of `values` has been matched. -/
def areItemsCompatibleMap (values : Option (List (String × V)))
    (items : List (FormMapItem V M)) : Bool :=
  match compatLoopMap values items (fun _ => false) with
  | none => false
  | some found => ((values.getD []).map Prod.fst).all found

/-- The per-key record stored in `selected` by `getFixedItemsValues`
(drag.ts lines 1307-1316). -/
structure Sel where
  index : Nat
  duplicated : Bool
  ignored : Bool
deriving DecidableEq

/-- The first pass of `getFixedItemsValues` (drag.ts lines 1317-1336): for
each item in order, record the first item of each `mapKey` group, mark the
group duplicated when a second member appears, and let a non-ignored item
take over from an ignored provisional winner (also overwriting the derived
value). -/
def selPass : List (FormMapItem V M) → Nat → List (String × Sel) → List (String × V) →
    List (String × Sel) × List (String × V)
  | [], _, sel, vals => (sel, vals)
  | item :: rest, idx, sel, vals =>
    match recGet sel item.mapKey with
    | none =>
      selPass rest (idx + 1)
        (recSet sel item.mapKey ⟨idx, false, item.ignored⟩)
        (recSet vals item.mapKey item.value)
    | some s =>
      if item.ignored = false ∧ s.ignored = true then
        selPass rest (idx + 1)
          (recSet sel item.mapKey ⟨idx, true, false⟩)
          (recSet vals item.mapKey item.value)
      else
        selPass rest (idx + 1)
          (recSet sel item.mapKey ⟨s.index, true, s.ignored⟩)
          vals

/-- The second pass of `getFixedItemsValues` (drag.ts lines 1338-1347),
per item: `duplicated = s?.duplicated || false`, `ignored = s?.index !==
index`, `index` rewritten to the position (the source keeps the old item
object when all three fields are unchanged, which preserves object
identity only; the fields are the same either way). -/
def fixItem (sel : List (String × Sel)) (idx : Nat) (item : FormMapItem V M) :
    FormMapItem V M :=
  match recGet sel item.mapKey with
  | none => { item with index := idx, duplicated := false, ignored := true }
  | some s =>
    { item with
      index := idx
      duplicated := s.duplicated
      ignored := decide (s.index ≠ idx) }

/-- The second pass of `getFixedItemsValues` over the whole list. -/
def fixPass2 (sel : List (String × Sel)) : Nat → List (FormMapItem V M) → List (FormMapItem V M)
  | _, [] => []
  | idx, item :: rest => fixItem sel idx item :: fixPass2 sel (idx + 1) rest

/-- `getFixedItemsValues` (drag.ts lines 1302-1350): the duplicate
resolution pass, returning the fixed items and the derived external
record. -/
def getFixedItemsValues (items : List (FormMapItem V M)) :
    List (FormMapItem V M) × List (String × V) :=
  let (sel, vals) := selPass items 0 [] []
  (fixPass2 sel 0 items, vals)

/-- `updateItems` (map variant, drag.ts lines 967-975): runs the duplicate
resolution pass; on a hard update the derived record is pushed to the
external setter. -/
def updateItemsMap (items : List (FormMapItem V M)) :
    List (FormMapItem V M) × List (String × V) :=
  getFixedItemsValues items

end MapVariant

section MapSpecFunctions

variable {V M : Type}

/-- Specification helper: the first item (with its absolute position,
counting from `off`) whose `mapKey` is `k`. -/
def firstKeyEnt : List (FormMapItem V M) → Nat → String → Option (Nat × FormMapItem V M)
  | [], _, _ => none
  | item :: rest, off, k =>
    if item.mapKey = k then some (off, item) else firstKeyEnt rest (off + 1) k

/-- Specification helper: the first non-ignored item (with its absolute
position) whose `mapKey` is `k`. -/
def firstLiveEnt : List (FormMapItem V M) → Nat → String → Option (Nat × FormMapItem V M)
  | [], _, _ => none
  | item :: rest, off, k =>
    if item.mapKey = k ∧ item.ignored = false then some (off, item)
    else firstLiveEnt rest (off + 1) k

/-- The winning entry of the `k` group, per the specified policy: the
earliest non-ignored item in sequence order, or the first item of the group
when every member is ignored. -/
def winnerEnt (items : List (FormMapItem V M)) (k : String) : Option (Nat × FormMapItem V M) :=
  (firstLiveEnt items 0 k).orElse (fun _ => firstKeyEnt items 0 k)

/-- The winning position of the `k` group. -/
def winnerIdx (items : List (FormMapItem V M)) (k : String) : Option Nat :=
  (winnerEnt items k).map (fun e => e.1)

/-- The winning value of the `k` group. -/
def winnerVal (items : List (FormMapItem V M)) (k : String) : Option V :=
  (winnerEnt items k).map (fun e => e.2.value)

/-- The number of items whose `mapKey` is `k`. -/
def countKey (items : List (FormMapItem V M)) (k : String) : Nat :=
  (items.filter (fun item => item.mapKey = k)).length

/-- First occurrences of the keys of a list, in order (JS record key
enumeration order for a record built by in-order assignments). -/
def keysDedup : List String → List String
  | [] => []
  | k :: rest => k :: (keysDedup rest).filter (fun q => q ≠ k)

/-- Tabulates a partial function over a key list, skipping keys where it is
undefined. -/
def tabRec {A : Type} (g : String → Option A) : List String → List (String × A)
  | [] => []
  | k :: ks =>
    match g k with
    | some v => (k, v) :: tabRec g ks
    | none => tabRec g ks

/-- The `selected` record that the first pass of `getFixedItemsValues`
computes for key `k`, in closed form. -/
def specSelAt (items : List (FormMapItem V M)) (k : String) : Option Sel :=
  ((firstLiveEnt items 0 k).map
      (fun e => Sel.mk e.1 (decide (2 ≤ countKey items k)) false)).orElse
    (fun _ => (firstKeyEnt items 0 k).map
      (fun e => Sel.mk e.1 (decide (2 ≤ countKey items k)) true))

/-- The winning value for key `k`, in closed form. -/
def specValAt (items : List (FormMapItem V M)) (k : String) : Option V :=
  winnerVal items k

/-- The final `selected` record of the first pass, in closed form. -/
def specSel (items : List (FormMapItem V M)) : List (String × Sel) :=
  tabRec (specSelAt items) (keysDedup (items.map (fun item => item.mapKey)))

/-- The final derived record of the first pass, in closed form. -/
def specVals (items : List (FormMapItem V M)) : List (String × V) :=
  tabRec (specValAt items) (keysDedup (items.map (fun item => item.mapKey)))

end MapSpecFunctions

section MoveOps

/-- `array.slice(a, b)` for non-negative clamped-from-below arguments. -/
def jsSlice {A : Type} (l : List A) (a b : Nat) : List A := (l.take b).drop a

/-- `array.slice(a)` for a non-negative argument. -/
def jsSliceFrom {A : Type} (l : List A) (a : Nat) : List A := l.drop a

/-- The array handed to `updateItems` by `moveItem` (array variant drag.ts
lines 555-573; map variant lines 1110-1128 is the identical construction):
`none` when `from === to` (`moveItem` evaluates to `undefined` and calls
nothing).  Elements are `Option` because `items[from]` is JS `undefined`
when `from` is out of range. -/
def jsMoveConcat {A : Type} (l : List A) (f t : Nat) : Option (List (Option A)) :=
  if f < t then
    some ((jsSlice l 0 f).map some ++ (jsSlice l (f + 1) (t + 1)).map some ++
      [l[f]?] ++ (jsSliceFrom l (t + 1)).map some)
  else if t < f then
    some ((jsSlice l 0 t).map some ++ [l[f]?] ++ (jsSlice l t f).map some ++
      (jsSliceFrom l (f + 1)).map some)
  else none

/-- Turns a list with no `undefined` hole into a plain list; a hole makes
`updateItems` throw a `TypeError` (reading `.index` of `undefined`) before
committing anything. -/
def seqOptions {A : Type} : List (Option A) → Option (List A)
  | [] => some []
  | none :: _ => none
  | some a :: rest => (seqOptions rest).map (fun l => a :: l)

/-- `moveItem` (array variant) composed with `updateItems`.  `none` means
nothing is committed: either `from === to` (the operation does nothing by
design) or an undefined hole makes `updateItems` throw first. -/
def moveItemArray {V M : Type} (items : List (FormArrayItem V M)) (f t : Nat) :
    Option (List (FormArrayItem V M) × List V) :=
  (jsMoveConcat items f t).bind (fun l => (seqOptions l).map updateItemsArray)

/-- `moveItem` (map variant) composed with `updateItems`. -/
def moveItemMap {V M : Type} [DecidableEq V] (items : List (FormMapItem V M)) (f t : Nat) :
    Option (List (FormMapItem V M) × List (String × V)) :=
  (jsMoveConcat items f t).bind (fun l => (seqOptions l).map updateItemsMap)

/-- Specification helper: insert `a` so that it ends up at position `n`. -/
def insertAt {A : Type} (n : Nat) (a : A) (l : List A) : List A :=
  l.take n ++ a :: l.drop n

/-- Specification helper: remove the element at position `n`. -/
def removeAt {A : Type} (n : Nat) (l : List A) : List A :=
  l.take n ++ l.drop (n + 1)

end MoveOps

section ValueMetaOps

variable {V : Type} [DecidableEq V]

/-- The metadata update of `setValue` (array variant drag.ts line 488, map
variant line 1036, also `setMapKey` line 1019): `meta ? { ...item.meta,
meta } : item.meta`.  Note `{ ...item.meta, meta }` is JS shorthand for
`{ ...item.meta, meta: meta }`: it copies the old fields unchanged and adds
one field literally named `"meta"` holding the supplied object. -/
def jsMetaWithMeta (m : Meta) (supplied : Option Meta) : Meta :=
  match supplied with
  | some s => recSet m "meta" (MVal.obj s)
  | none => m

/-- `setValue` (array variant, drag.ts lines 480-494): replace the value at
`index`, apply the `meta ? { ...item.meta, meta } : item.meta` update
there, leave other items alone, then `updateItems` (hard). -/
def setValueArray (items : List (FormArrayItem V Meta)) (index : Nat) (v : V)
    (meta : Option Meta) : List (FormArrayItem V Meta) × List V :=
  updateItemsArray (mapIdxFrom
    (fun i item =>
      if i = index then { item with value := v, meta := jsMetaWithMeta item.meta meta }
      else item) 0 items)

/-- `setValue` (map variant, drag.ts lines 1028-1043). -/
def setValueMap (items : List (FormMapItem V Meta)) (index : Nat) (v : V)
    (meta : Option Meta) : List (FormMapItem V Meta) × List (String × V) :=
  updateItemsMap (mapIdxFrom
    (fun i item =>
      if i = index then { item with value := v, meta := jsMetaWithMeta item.meta meta }
      else item) 0 items)

/-- The three shapes of the `metas` argument of `setMetas` (map variant):
the `undefined` sentinel, a record keyed by `mapKey`, or a
`(value, mapKey, item) => fieldValue` function. -/
inductive MapMetasSource (V : Type) : Type where
  | undef : MapMetasSource V
  | keyed : List (String × MVal) → MapMetasSource V
  | fn : (V → String → FormMapItem V Meta → MVal) → MapMetasSource V

/-- The per-item field value chosen by `setMetas` (map variant, drag.ts
lines 1177-1182): `typeof metas === "function" ? metas(item.value,
item.mapKey, item) : !item.ignored && metas ? metas[item.mapKey] :
undefined`. -/
def setMetasMapField (item : FormMapItem V Meta) (metas : MapMetasSource V) : MVal :=
  match metas with
  | .fn f => f item.value item.mapKey item
  | .keyed r => if item.ignored = false then (recGet r item.mapKey).getD MVal.undef
      else MVal.undef
  | .undef => MVal.undef

/-- `setMetas` (map variant, drag.ts lines 1164-1189): writes the chosen
field value into every item's metadata, then `updateItems` with
`soft = true` (the duplicate resolution pass still runs; the derived record
is computed but not pushed). -/
def setMetasMap (items : List (FormMapItem V Meta)) (field : String)
    (metas : MapMetasSource V) : List (FormMapItem V Meta) × List (String × V) :=
  updateItemsMap (items.map (fun item =>
    { item with meta := recSet item.meta field (setMetasMapField item metas) }))

end ValueMetaOps

section AppendOps

variable {V M : Type}

/-- The mirror state relevant to `appendItem`: the shadow items (read and
written synchronously through `itemsRef`), the reserved `appendKey` (React
state), and the `generateKey` counter. -/
structure ArrayState (V M : Type) where
  items : List (FormArrayItem V M)
  appendKey : Nat
  counter : Nat
deriving DecidableEq

/-- The body of `appendItem` (array variant, drag.ts lines 518-532) as
executed with a given captured `appendKey`: the `useCallback` closure
captures the `appendKey` of the render that created it, while items are
read through `itemsRef` at call time.  `setAppendKey(generateKey())`
reserves a fresh key (a pending React state update, returned separately);
the committed item uses the captured key.  Returns
`((new items, new counter), newly reserved appendKey, pushed values)`.
`meta || {}` is modelled by `meta.getD emptyMeta`. -/
def appendItemCaptured (capturedAppendKey : Nat) (items : List (FormArrayItem V M))
    (counter : Nat) (v : V) (meta : Option M) (emptyMeta : M) :
    (List (FormArrayItem V M) × Nat) × Nat × List V :=
  let newAppendKey := counter
  let counter2 := counter + 1
  let r := updateItemsArray (items ++ [⟨items.length, capturedAppendKey, v, meta.getD emptyMeta⟩])
  ((r.1, counter2), newAppendKey, r.2)

/-- `appendItem` (array variant) as observed across renders: the host has
re-rendered between calls, so the captured `appendKey` is the current state
`appendKey`. -/
def appendItemArray (s : ArrayState V M) (v : V) (meta : Option M) (emptyMeta : M) :
    ArrayState V M × List V :=
  let r := appendItemCaptured s.appendKey s.items s.counter v meta emptyMeta
  (⟨r.1.1, r.2.1, r.1.2⟩, r.2.2)

/-- The mirror state relevant to map-variant operations. -/
structure MapState (V M : Type) where
  items : List (FormMapItem V M)
  appendKey : Nat
  counter : Nat
deriving DecidableEq

/-- `appendItem` (map variant, drag.ts lines 1067-1084), across renders:
appends a provisionally `ignored = true`, `duplicated = false` item keyed
by the reserved `appendKey`, reserves a fresh `appendKey`, and runs
`updateItems` (hard). -/
def appendItemMap [DecidableEq V] (s : MapState V M) (mapKey : String) (v : V)
    (meta : Option M) (emptyMeta : M) : MapState V M × List (String × V) :=
  let newAppendKey := s.counter
  let r := updateItemsMap
    (s.items ++ [⟨s.items.length, s.appendKey, mapKey, v, meta.getD emptyMeta, false, true⟩])
  (⟨r.1, newAppendKey, s.counter + 1⟩, r.2)

end AppendOps

section DragController

/-- `draggingClassNames` (drag.ts lines 167-183): the record mapping
positions to class strings.  Nothing when no source; the source position
gets the source class; when a target exists it additionally gets
`` `${classTarget} ${classPosition}` `` where `classPosition` is the before
class if `target < source` and the after class otherwise. -/
def draggingClassNames (source target : Int)
    (classSource classTarget classBefore classAfter : String) : List (Int × String) :=
  if source < 0 then []
  else
    let c1 := recSet ([] : List (Int × String)) source classSource
    if target < 0 then c1
    else recSet c1 target
      (classTarget ++ " " ++ (if target < source then classBefore else classAfter))

/-- Modelled from claim C10's words: the tags it asserts for position `i`
given `source` and `target` (with direction `before` iff
`target < source`): the source position gets `source`; the target gets
`target` plus the direction tag; the neighbor adjacent to the insertion
line (the item immediately before a before-direction target, and the item
immediately after an after-direction target) gets the opposite tag. -/
def claimDragTags (source target i : Int) : List String :=
  (if i = source then ["source"] else []) ++
  (if i = target then
      ["target"] ++ (if target < source then ["before"] else ["after"])
    else []) ++
  (if target < source ∧ i = target - 1 then ["after"] else []) ++
  (if source < target ∧ i = target + 1 then ["before"] else [])

end DragController

section ClaimSpecs

variable {V M : Type} [DecidableEq V]

/-- Modelled from claim C1's words: the compatibility criterion the claim
asserts — compatibility fails only when some external key lacks a matching
non-ignored shadow item, or a non-ignored item's value differs from the
external value at its key; ignored items are unconstrained (in particular
an ignored item may have a `mapKey` absent from the external record). -/
def claimCompatOK (values : Option (List (String × V)))
    (items : List (FormMapItem V M)) : Bool :=
  (values.getD []).all (fun kv =>
    items.any (fun item => item.ignored = false ∧ item.mapKey = kv.1)) &&
  items.all (fun item =>
    item.ignored = true ∨ recGet (values.getD []) item.mapKey = some item.value)

/-- The compatibility loop of the map variant together with its final
`Object.values(foundValues).every(...)` check, for an arbitrary starting
`foundValues`; `areItemsCompatibleMap (some vs) items` is this with the
all-`false` start. -/
def compatAll (vs : List (String × V)) (items : List (FormMapItem V M))
    (found : String → Bool) : Bool :=
  match compatLoopMap (some vs) items found with
  | none => false
  | some fd => (vs.map Prod.fst).all fd

end ClaimSpecs

/-! ## General lemmas -/

section BasicLemmas

variable {V M : Type} [DecidableEq V]

lemma everyIdxFrom_eq_true_iff {A : Type} (p : Nat → A → Bool) :
    ∀ (l : List A) (i0 : Nat),
    everyIdxFrom p i0 l = true ↔ ∀ j a, l[j]? = some a → p (i0 + j) a = true
  | [], i0 => by simp [everyIdxFrom]
  | x :: rest, i0 => by
    rw [everyIdxFrom, Bool.and_eq_true, everyIdxFrom_eq_true_iff p rest (i0 + 1)]
    constructor
    · rintro ⟨hx, hrest⟩ j a hj
      match j, hj with
      | 0, hj =>
        simp only [List.getElem?_cons_zero, Option.some.injEq] at hj
        simpa [← hj] using hx
      | (n + 1), hj =>
        simp only [List.getElem?_cons_succ] at hj
        have := hrest n a hj
        simpa [Nat.add_assoc, Nat.add_comm 1 n] using this
    · intro h
      refine ⟨by simpa using h 0 x (by simp), ?_⟩
      intro j a hj
      have := h (j + 1) a (by simpa using hj)
      simpa [Nat.add_assoc, Nat.add_comm 1 j] using this

lemma areItemsCompatibleArray_iff (vs : List V) (items : List (FormArrayItem V M)) :
    areItemsCompatibleArray (some vs) items = true ↔
      (vs.length = items.length ∧
        ∀ (j : Nat) (item : FormArrayItem V M),
          items[j]? = some item → vs[j]? = some item.value) := by
  rw [areItemsCompatibleArray, Bool.and_eq_true, decide_eq_true_iff,
    everyIdxFrom_eq_true_iff]
  simp only [Option.map_some, Option.getD_some, Option.some_bind, Nat.zero_add,
    decide_eq_true_iff, Option.map_some']

omit [DecidableEq V] in
lemma buildArrayItems_length (initMeta : V → M) :
    ∀ (vs : List V) (idx ctr : Nat), (buildArrayItems initMeta vs idx ctr).length = vs.length
  | [], _, _ => rfl
  | _ :: rest, idx, ctr => by
    simp [buildArrayItems, buildArrayItems_length initMeta rest (idx + 1) (ctr + 1)]

omit [DecidableEq V] in
lemma buildArrayItems_value (initMeta : V → M) :
    ∀ (vs : List V) (idx ctr j : Nat) (item : FormArrayItem V M),
    (buildArrayItems initMeta vs idx ctr)[j]? = some item → vs[j]? = some item.value
  | [], _, _, j, item => by simp [buildArrayItems]
  | v :: rest, idx, ctr, 0, item => by
    simp only [buildArrayItems, List.getElem?_cons_zero, Option.some.injEq]
    intro h
    simp [← h]
  | v :: rest, idx, ctr, (j + 1), item => by
    simp only [buildArrayItems, List.getElem?_cons_succ]
    exact buildArrayItems_value initMeta rest (idx + 1) (ctr + 1) j item

lemma buildArrayItems_compatible (initMeta : V → M) (vs : List V) (ctr : Nat) :
    areItemsCompatibleArray (some vs) (buildArrayItems initMeta vs 0 ctr) = true := by
  rw [areItemsCompatibleArray_iff]
  exact ⟨(buildArrayItems_length initMeta vs 0 ctr).symm,
    fun j item hj => buildArrayItems_value initMeta vs 0 ctr j item hj⟩

end BasicLemmas

/-! ## Claim C2: list-mirror reconciliation -/

/-- Claim C2: when the external array has the same length as the shadow and
every position's external value equals the shadow item's value there, the
reconciliation effect leaves the shadow (and the key counter) unchanged;
otherwise it rebuilds the whole shadow, one fresh item per external entry
with a freshly generated key and metadata from the initializer; and
observing the same external value a second time performs no further
change. -/
theorem C2_reconciliation {V M : Type} [DecidableEq V] (initMeta : V → M)
    (vs : List V) (items : List (FormArrayItem V M)) (counter c2 : Nat) :
    ((vs.length = items.length ∧
        ∀ (j : Nat) (item : FormArrayItem V M),
          items[j]? = some item → vs[j]? = some item.value) →
      reconcileArray initMeta (some vs) items counter = (items, counter)) ∧
    ((¬(vs.length = items.length ∧
        ∀ (j : Nat) (item : FormArrayItem V M),
          items[j]? = some item → vs[j]? = some item.value)) →
      reconcileArray initMeta (some vs) items counter =
        (buildArrayItems initMeta vs 0 counter, counter + vs.length)) ∧
    reconcileArray initMeta (some vs)
        (reconcileArray initMeta (some vs) items counter).1 c2 =
      ((reconcileArray initMeta (some vs) items counter).1, c2) := by
  refine ⟨?_, ?_, ?_⟩
  · intro h
    rw [reconcileArray, if_pos ((areItemsCompatibleArray_iff vs items).mpr h)]
  · intro h
    rw [reconcileArray,
      if_neg (fun hc => h ((areItemsCompatibleArray_iff vs items).mp hc))]
    rfl
  · by_cases hc : areItemsCompatibleArray (some vs) items = true
    · have h : reconcileArray initMeta (some vs) items counter = (items, counter) := by
        rw [reconcileArray, if_pos hc]
      rw [h]
      show reconcileArray initMeta (some vs) items c2 = (items, c2)
      rw [reconcileArray, if_pos hc]
    · have h : reconcileArray initMeta (some vs) items counter =
          (buildArrayItems initMeta vs 0 counter, counter + vs.length) := by
        rw [reconcileArray, if_neg hc]
        rfl
      rw [h]
      show reconcileArray initMeta (some vs) (buildArrayItems initMeta vs 0 counter) c2 =
        (buildArrayItems initMeta vs 0 counter, c2)
      rw [reconcileArray, if_pos (buildArrayItems_compatible initMeta vs counter)]

/-- Witness for C2: a concrete compatible observation is a no-op. -/
theorem C2_reconciliation_witness :
    reconcileArray (fun _ => ()) (some [1, 2])
        ([⟨0, 5, 1, ()⟩, ⟨1, 6, 2, ()⟩] : List (FormArrayItem Nat Unit)) 9 =
      ([⟨0, 5, 1, ()⟩, ⟨1, 6, 2, ()⟩], 9) :=
  (C2_reconciliation (fun _ => ()) [1, 2] [⟨0, 5, 1, ()⟩, ⟨1, 6, 2, ()⟩] 9 0).1
    (by
      refine ⟨rfl, ?_⟩
      intro j item hj
      match j, hj with
      | 0, hj => simp only [List.getElem?_cons_zero, Option.some.injEq] at hj; simp [← hj]
      | 1, hj => simp only [List.getElem?_cons_succ, List.getElem?_cons_zero,
          Option.some.injEq] at hj; simp [← hj]
      | (n + 2), hj => simp at hj)

/-! ## Claim C4: setValue's meta argument -/

/-- Claim C4 fails on the code: at a concrete input, `setValue(0, 8, {touched:1})`
on an item with metadata `{touched: 0}` leaves `touched` at `0` and adds a
field literally named `"meta"` holding the supplied object (the source
writes `{ ...item.meta, meta }`, not `{ ...item.meta, ...meta }`), in both
the array and map variants; the shallow merge the claim describes would
instead produce `{touched: 1}`. -/
theorem C4_setValue_meta_not_merged :
    (setValueArray [⟨0, 0, (7 : Nat), [("touched", MVal.num 0)]⟩] 0 8
        (some [("touched", MVal.num 1)])).1 =
      [⟨0, 0, 8, [("touched", MVal.num 0), ("meta", MVal.obj [("touched", MVal.num 1)])]⟩] ∧
    (setValueMap [⟨0, 0, "a", (7 : Nat), [("touched", MVal.num 0)], false, false⟩] 0 8
        (some [("touched", MVal.num 1)])).1 =
      [⟨0, 0, "a", 8, [("touched", MVal.num 0), ("meta", MVal.obj [("touched", MVal.num 1)])],
        false, false⟩] ∧
    shallowMerge [("touched", MVal.num 0)] [("touched", MVal.num 1)] =
      [("touched", MVal.num 1)] ∧
    ([("touched", MVal.num 0), ("meta", MVal.obj [("touched", MVal.num 1)])] : Meta) ≠
      [("touched", MVal.num 1)] := by
  refine ⟨?_, ?_, ?_, ?_⟩ <;> decide

/-! ## Claim C5: moveItem with equal or out-of-range indices -/

/-- Claim C5's `from == to` half holds (no update is committed), but the
out-of-range half fails on the code: with three items, `moveItem(0, 10)`
commits a changed shadow and pushes a changed external array (the moved
item is sent to the end; there is no range guard in the source). -/
theorem C5_moveItem_range :
    (∀ (V M : Type) (items : List (FormArrayItem V M)) (f : Nat),
      moveItemArray items f f = none) ∧
    (∀ (V M : Type) (_inst : DecidableEq V) (items : List (FormMapItem V M)) (f : Nat),
      moveItemMap items f f = none) ∧
    moveItemArray
        ([⟨0, 11, 10, ()⟩, ⟨1, 12, 20, ()⟩, ⟨2, 13, 30, ()⟩] : List (FormArrayItem Nat Unit))
        0 10 =
      some ([⟨0, 12, 20, ()⟩, ⟨1, 13, 30, ()⟩, ⟨2, 11, 10, ()⟩], [20, 30, 10]) := by
  refine ⟨?_, ?_, by decide⟩
  · intro Vx Mx items f
    simp [moveItemArray, jsMoveConcat]
  · intro Vx Mx _inst items f
    simp [moveItemMap, jsMoveConcat]

/-! ## Claim C10: drag classification tags -/

/-- Claim C10 fails on the code: with `source = 2`, `target = 1` (direction
before), the claim assigns the after tag to position `0`, but the code's
classification record contains no entry at `0` at all — only the source
and target positions are tagged. -/
theorem C10_neighbor_not_tagged :
    claimDragTags 2 1 0 = ["after"] ∧
    draggingClassNames 2 1 "s" "t" "b" "a" = [(2, "s"), (1, "t b")] ∧
    recGet (draggingClassNames 2 1 "s" "t" "b" "a") 0 = none := by
  refine ⟨?_, ?_, ?_⟩ <;> decide

/-- Claim C10 amended: the classification is a pure function of
`(source, target)`; with a valid source and target, exactly the source and
target positions are tagged — the source position with the source class,
and the target position with the target class together with the before
class when `target < source` and the after class otherwise; no neighboring
position receives any class. -/
theorem C10_amended_classification (source target : Int) (cs ct cb ca : String)
    (hs : 0 ≤ source) (ht : 0 ≤ target) (hne : source ≠ target) :
    draggingClassNames source target cs ct cb ca =
      [(source, cs), (target, ct ++ " " ++ (if target < source then cb else ca))] ∧
    ∀ i : Int, i ≠ source → i ≠ target →
      recGet (draggingClassNames source target cs ct cb ca) i = none := by
  have h1 : ¬source < 0 := not_lt.mpr hs
  have h2 : ¬target < 0 := not_lt.mpr ht
  have heq : draggingClassNames source target cs ct cb ca =
      [(source, cs), (target, ct ++ " " ++ (if target < source then cb else ca))] := by
    rw [draggingClassNames, if_neg h1]
    simp only [recSet, if_neg h2, if_neg hne]
  refine ⟨heq, ?_⟩
  intro i his hit
  rw [heq, recGet, if_neg (fun h => his h.symm), recGet, if_neg (fun h => hit h.symm),
    recGet]

/-- Witness for the amended C10 at `source = 2`, `target = 1`. -/
theorem C10_amended_classification_witness :
    draggingClassNames 2 1 "s" "t" "b" "a" =
      [((2 : Int), "s"), ((1 : Int), "t" ++ " " ++ (if (1 : Int) < 2 then "b" else "a"))] :=
  (C10_amended_classification 2 1 "s" "t" "b" "a" (by decide) (by decide) (by decide)).1

/-! ## Claim C1: record-mirror compatibility and ignored items -/

/-- Claim C1 fails on the code: an ignored shadow item whose `mapKey` is
absent from the external record makes the shadow incompatible (the key
presence check runs before the ignored check), even though per the claim
no external key lacks a match and no non-ignored value differs (the claim
criterion accepts the input). -/
theorem C1_ignored_absent_key_incompatible :
    claimCompatOK (some ([] : List (String × Nat)))
        [(⟨0, 5, "a", 1, (), false, true⟩ : FormMapItem Nat Unit)] = true ∧
    areItemsCompatibleMap (some ([] : List (String × Nat)))
        [(⟨0, 5, "a", 1, (), false, true⟩ : FormMapItem Nat Unit)] = false := by
  refine ⟨?_, ?_⟩ <;> decide

lemma areItemsCompatibleMap_eq_compatAll {V M : Type} [DecidableEq V]
    (vs : List (String × V)) (items : List (FormMapItem V M)) :
    areItemsCompatibleMap (some vs) items = compatAll vs items (fun _ => false) := rfl

lemma compatAll_spec {V M : Type} [DecidableEq V] (vs : List (String × V)) :
    ∀ (items : List (FormMapItem V M)) (found : String → Bool),
    compatAll vs items found = true ↔
      ((∀ item ∈ items, (recGet vs item.mapKey).isSome = true) ∧
       (∀ item ∈ items, item.ignored = false →
          recGet vs item.mapKey = some item.value ∧ found item.mapKey = false) ∧
       List.Pairwise
         (fun a b => a.ignored = false → b.ignored = false → a.mapKey ≠ b.mapKey) items ∧
       (∀ k ∈ vs.map Prod.fst, found k = true ∨
          ∃ it ∈ items, it.ignored = false ∧ it.mapKey = k)) := by
  intro items
  induction items with
  | nil =>
    intro found
    simp [compatAll, compatLoopMap, List.all_eq_true]
  | cons item rest ih =>
    intro found
    by_cases h1 : (recGet vs item.mapKey).isSome = true
    · by_cases h2 : item.ignored = true
      · have hL : compatAll vs (item :: rest) found = compatAll vs rest found := by
          simp [compatAll, compatLoopMap, h1, h2]
        rw [hL, ih found]
        simp only [List.forall_mem_cons, List.pairwise_cons, List.exists_mem_cons_iff]
        constructor
        · rintro ⟨c1, c2, c3, c4⟩
          refine ⟨⟨h1, c1⟩, ⟨fun hig => absurd hig (by simp [h2]), c2⟩,
            ⟨fun b hb hig1 => absurd hig1 (by simp [h2]), c3⟩,
            fun k hk => (c4 k hk).imp_right Or.inr⟩
        · rintro ⟨⟨-, c1⟩, ⟨-, c2⟩, ⟨-, c3⟩, c4⟩
          refine ⟨c1, c2, c3, ?_⟩
          intro k hk
          rcases c4 k hk with hf | (⟨hig, -⟩ | hex)
          · exact Or.inl hf
          · exact absurd hig (by simp [h2])
          · exact Or.inr hex
      · have h2f : item.ignored = false := by
          cases hx : item.ignored
          · rfl
          · exact absurd hx h2
        by_cases h3 : found item.mapKey = true
        · have hL : compatAll vs (item :: rest) found = false := by
            simp [compatAll, compatLoopMap, h1, h2, h3]
          rw [hL]
          refine iff_of_false (by simp) ?_
          rintro ⟨-, c2, -, -⟩
          have hcon := (c2 item (List.mem_cons_self item rest) h2f).2
          rw [h3] at hcon
          exact absurd hcon (by simp)
        · by_cases h4 : recGet vs item.mapKey = some item.value
          · have h3f : found item.mapKey = false := by
              cases hx : found item.mapKey
              · rfl
              · exact absurd hx h3
            have hL : compatAll vs (item :: rest) found =
                compatAll vs rest
                  (fun k => if k = item.mapKey then true else found k) := by
              simp [compatAll, compatLoopMap, h1, h2, h3, h4]
            rw [hL, ih]
            simp only [List.forall_mem_cons, List.pairwise_cons, List.exists_mem_cons_iff]
            constructor
            · rintro ⟨c1, c2, c3, c4⟩
              have hfnd : ∀ it ∈ rest, it.ignored = false →
                  it.mapKey ≠ item.mapKey ∧ found it.mapKey = false := by
                intro it hit hig
                have h := (c2 it hit hig).2
                by_cases hk0 : it.mapKey = item.mapKey
                · rw [if_pos hk0] at h
                  exact absurd h (by simp)
                · rw [if_neg hk0] at h
                  exact ⟨hk0, h⟩
              refine ⟨⟨h1, c1⟩,
                ⟨fun _ => ⟨h4, h3f⟩,
                  fun it hit hig => ⟨(c2 it hit hig).1, (hfnd it hit hig).2⟩⟩,
                ⟨fun b hb hig1 hig2 => fun h => (hfnd b hb hig2).1 h.symm, c3⟩, ?_⟩
              intro k hk
              rcases c4 k hk with hf | hex
              · by_cases hk0 : k = item.mapKey
                · exact Or.inr (Or.inl ⟨h2f, hk0.symm⟩)
                · rw [if_neg hk0] at hf
                  exact Or.inl hf
              · exact Or.inr (Or.inr hex)
            · rintro ⟨⟨-, c1⟩, ⟨-, c2⟩, ⟨c3h, c3⟩, c4⟩
              refine ⟨c1, ?_, c3, ?_⟩
              · intro it hit hig
                refine ⟨(c2 it hit hig).1, ?_⟩
                have hne : it.mapKey ≠ item.mapKey :=
                  fun h => (c3h it hit h2f hig) h.symm
                rw [if_neg hne]
                exact (c2 it hit hig).2
              · intro k hk
                by_cases hk0 : k = item.mapKey
                · exact Or.inl (by rw [if_pos hk0])
                · rcases c4 k hk with hf | (⟨-, hkey⟩ | hex)
                  · exact Or.inl (by rw [if_neg hk0]; exact hf)
                  · exact absurd hkey.symm hk0
                  · exact Or.inr hex
          · have hL : compatAll vs (item :: rest) found = false := by
              simp [compatAll, compatLoopMap, h1, h2, h3, h4]
            rw [hL]
            refine iff_of_false (by simp) ?_
            rintro ⟨-, c2, -, -⟩
            exact h4 (c2 item (List.mem_cons_self item rest) h2f).1
    · have hL : compatAll vs (item :: rest) found = false := by
        simp [compatAll, compatLoopMap, h1]
      rw [hL]
      refine iff_of_false (by simp) ?_
      rintro ⟨c1, -, -, -⟩
      exact h1 (c1 item (List.mem_cons_self item rest))

/-- Claim C1 amended: in the record mirror's compatibility check, every
shadow item's `mapKey` — ignored or not — must be present in the external
record (an ignored item with an absent key makes the shadow incompatible);
given presence, an ignored item is otherwise unconstrained (its value may
differ), and compatibility holds exactly when additionally every
non-ignored item's value equals the external value at its key, no two
non-ignored items share a `mapKey`, and every external key is matched by a
non-ignored item. -/
theorem C1_amended_compatibility {V M : Type} [DecidableEq V]
    (vs : List (String × V)) (items : List (FormMapItem V M)) :
    areItemsCompatibleMap (some vs) items = true ↔
      ((∀ item ∈ items, (recGet vs item.mapKey).isSome = true) ∧
       (∀ item ∈ items, item.ignored = false →
          recGet vs item.mapKey = some item.value) ∧
       List.Pairwise
         (fun a b => a.ignored = false → b.ignored = false → a.mapKey ≠ b.mapKey) items ∧
       (∀ kv ∈ vs, ∃ it ∈ items, it.ignored = false ∧ it.mapKey = kv.1)) := by
  rw [areItemsCompatibleMap_eq_compatAll, compatAll_spec]
  constructor
  · rintro ⟨c1, c2, c3, c4⟩
    refine ⟨c1, fun it hit hig => (c2 it hit hig).1, c3, ?_⟩
    intro kv hkv
    rcases c4 kv.1 (List.mem_map.mpr ⟨kv, hkv, rfl⟩) with hf | hex
    · exact absurd hf (by simp)
    · exact hex
  · rintro ⟨c1, c2, c3, c4⟩
    refine ⟨c1, fun it hit hig => ⟨c2 it hit hig, rfl⟩, c3, ?_⟩
    intro k hk
    rcases List.mem_map.mp hk with ⟨kv, hkv, hkeq⟩
    exact Or.inr (hkeq ▸ c4 kv hkv)

/-- Witness for the amended C1: a concrete compatible record/shadow pair,
including an ignored item whose key is present but whose value differs. -/
theorem C1_amended_compatibility_witness :
    areItemsCompatibleMap (some [("x", (1 : Nat)), ("y", 2)])
      ([⟨0, 5, "x", 1, (), false, false⟩, ⟨1, 6, "y", 2, (), false, false⟩,
        ⟨2, 7, "x", 9, (), true, true⟩] : List (FormMapItem Nat Unit)) = true :=
  (C1_amended_compatibility _ _).mpr (by
    refine ⟨?_, ?_, ?_, ?_⟩ <;> decide)

/-! ## Claim C8: appendItem and the reserved appendKey -/

lemma reindexFrom_map_key {V M : Type} :
    ∀ (l : List (FormArrayItem V M)) (i : Nat),
    (reindexFrom i l).map (fun item => item.key) = l.map (fun item => item.key)
  | [], _ => rfl
  | item :: rest, i => by
    simp [reindexFrom, reindexFrom_map_key rest (i + 1)]

lemma appendItemArray_map_key {V M : Type} (s : ArrayState V M) (v : V)
    (m : Option M) (em : M) :
    (appendItemArray s v m em).1.items.map (fun item => item.key) =
      s.items.map (fun item => item.key) ++ [s.appendKey] := by
  show (reindexFrom 0 (s.items ++ [⟨s.items.length, s.appendKey, v, m.getD em⟩])).map
      (fun item => item.key) = _
  rw [reindexFrom_map_key, List.map_append]
  rfl

/-- Claim C8 fails on the code in the synchronous case: `appendKey` is
React state, not a ref, so two `appendItem` calls in the same render cycle
both use the appendKey captured by the closure at the last render — with
captured appendKey 3, both committed items carry key 3 (duplicate keys),
although two fresh keys (10 and 11) were reserved. -/
theorem C8_same_render_duplicate_keys :
    (appendItemCaptured 3
        (appendItemCaptured 3 ([] : List (FormArrayItem Nat Unit)) 10 5 none ()).1.1
        (appendItemCaptured 3 ([] : List (FormArrayItem Nat Unit)) 10 5 none ()).1.2
        6 none ()).1.1 =
      [⟨0, 3, 5, ()⟩, ⟨1, 3, 6, ()⟩] ∧
    (appendItemCaptured 3
        (appendItemCaptured 3 ([] : List (FormArrayItem Nat Unit)) 10 5 none ()).1.1
        (appendItemCaptured 3 ([] : List (FormArrayItem Nat Unit)) 10 5 none ()).1.2
        6 none ()).2.1 = 11 := by
  refine ⟨?_, ?_⟩ <;> decide

/-- Claim C8 amended: each `appendItem` call commits its trailing item with
the `appendKey` captured at the last render and reserves the next counter
value as the new `appendKey`; two calls separated by a re-render therefore
produce items with the distinct keys `appendKey` and `counter`, but two
calls within one render cycle (before the host re-renders) reuse the same
captured `appendKey` and produce two items with identical keys. -/
theorem C8_amended_append_keys {V M : Type} (s : ArrayState V M) (v1 v2 : V)
    (m1 m2 : Option M) (em : M) (hinv : s.appendKey < s.counter) :
    (((appendItemArray s v1 m1 em).1.items.map (fun item => item.key)).getLast? =
      some s.appendKey) ∧
    (appendItemArray s v1 m1 em).1.appendKey = s.counter ∧
    (appendItemArray s v1 m1 em).1.appendKey < (appendItemArray s v1 m1 em).1.counter ∧
    (((appendItemArray (appendItemArray s v1 m1 em).1 v2 m2 em).1.items.map
        (fun item => item.key)) =
      s.items.map (fun item => item.key) ++ [s.appendKey, s.counter]) ∧
    s.appendKey ≠ s.counter ∧
    (∀ (renderKey : Nat) (items : List (FormArrayItem V M)) (counter : Nat),
      ((appendItemCaptured renderKey
          (appendItemCaptured renderKey items counter v1 m1 em).1.1
          (appendItemCaptured renderKey items counter v1 m1 em).1.2
          v2 m2 em).1.1.map (fun item => item.key)) =
        items.map (fun item => item.key) ++ [renderKey, renderKey]) := by
  have hkeys1 := appendItemArray_map_key s v1 m1 em
  refine ⟨?_, rfl, Nat.lt_succ_self _, ?_, Nat.ne_of_lt hinv, ?_⟩
  · rw [hkeys1, List.getLast?_concat]
  · have hkeys2 := appendItemArray_map_key (appendItemArray s v1 m1 em).1 v2 m2 em
    rw [hkeys2, hkeys1]
    simp only [List.append_assoc, List.singleton_append]
    rfl
  · intro renderKey items counter
    show (reindexFrom 0
        ((appendItemCaptured renderKey items counter v1 m1 em).1.1 ++
          [⟨(appendItemCaptured renderKey items counter v1 m1 em).1.1.length,
            renderKey, v2, m2.getD em⟩])).map (fun item => item.key) = _
    rw [reindexFrom_map_key, List.map_append]
    show (reindexFrom 0 (items ++ [⟨items.length, renderKey, v1, m1.getD em⟩])).map
        (fun item => item.key) ++ [renderKey] = _
    rw [reindexFrom_map_key, List.map_append]
    simp

/-- Witness for the amended C8 at a concrete state. -/
theorem C8_amended_append_keys_witness :
    ((appendItemArray (⟨[], 3, 10⟩ : ArrayState Nat Unit) 5 none ()).1.items.map
      (fun item => item.key)).getLast? = some 3 :=
  (C8_amended_append_keys ⟨[], 3, 10⟩ 5 6 none none () (by decide)).1

/-! ## Lemmas about the duplicate resolution second pass -/

section FixPassLemmas

variable {V M : Type}

lemma fixPass2_getElem (sel : List (String × Sel)) :
    ∀ (l : List (FormMapItem V M)) (off i : Nat),
    (fixPass2 sel off l)[i]? = (l[i]?).map (fixItem sel (off + i))
  | [], off, i => by simp [fixPass2]
  | item :: rest, off, 0 => by simp [fixPass2]
  | item :: rest, off, (i + 1) => by
    have h := fixPass2_getElem sel rest (off + 1) i
    simp only [fixPass2, List.getElem?_cons_succ, h]
    have harith : off + 1 + i = off + (i + 1) := by omega
    rw [harith]

lemma fixItem_meta (sel : List (String × Sel)) (idx : Nat) (item : FormMapItem V M) :
    (fixItem sel idx item).meta = item.meta := by
  rw [fixItem]
  cases recGet sel item.mapKey <;> rfl

lemma fixItem_fields (sel : List (String × Sel)) (idx : Nat) (item : FormMapItem V M) :
    (fixItem sel idx item).meta = item.meta ∧
    (fixItem sel idx item).key = item.key ∧
    (fixItem sel idx item).mapKey = item.mapKey ∧
    (fixItem sel idx item).value = item.value ∧
    (fixItem sel idx item).index = idx := by
  rw [fixItem]
  cases recGet sel item.mapKey <;> exact ⟨rfl, rfl, rfl, rfl, rfl⟩

lemma recGet_recSet_self {K A : Type} [DecidableEq K] :
    ∀ (m : List (K × A)) (k : K) (v : A), recGet (recSet m k v) k = some v
  | [], k, v => by simp [recGet, recSet]
  | (k0, w) :: rest, k, v => by
    by_cases h : k0 = k
    · simp [recGet, recSet, h]
    · simp only [recSet, if_neg h, recGet, if_neg h]
      exact recGet_recSet_self rest k v

end FixPassLemmas

/-! ## Claim C9: setMetas on ignored items (map variant) -/

/-- Claim C9 fails on the code for function sources: `setMetas("f", fn)`
with an ignored item applies the function to the item (yielding `7` here)
instead of supplying `undefined` — only the `undefined` sentinel and keyed
record sources give ignored items `undefined`. -/
theorem C9_fn_source_reaches_ignored :
    ((setMetasMap [⟨0, 5, "a", (1 : Nat), ([] : Meta), true, true⟩] "f"
        (MapMetasSource.fn (fun _ _ _ => MVal.num 7))).1.map
      (fun item => recGet item.meta "f")) = [some (MVal.num 7)] ∧
    some (MVal.num 7) ≠ some MVal.undef := by
  refine ⟨by decide, by decide⟩

lemma setMetasMap_meta_at {V : Type} [DecidableEq V]
    (items : List (FormMapItem V Meta)) (field : String) (metas : MapMetasSource V)
    (i : Nat) (item : FormMapItem V Meta) (h : items[i]? = some item) :
    ((setMetasMap items field metas).1[i]?).map (fun it => recGet it.meta field) =
      some (some (setMetasMapField item metas)) := by
  show ((fixPass2 _ 0 (items.map _))[i]?).map _ = _
  rw [fixPass2_getElem]
  rw [List.getElem?_map, h]
  simp [fixItem_meta, recGet_recSet_self]

/-- Claim C9 amended: in the record mirror's `setMetas(field, source)`, an
item whose ignored flag is true receives `undefined` for the `undefined`
sentinel and for a keyed record source, while a function source is applied
to every item — ignored included — and its result is stored as-is;
non-ignored items receive the value the source provides for them (the
record value at their `mapKey`, or `undefined` when absent). -/
theorem C9_amended_setMetas {V : Type} [DecidableEq V]
    (items : List (FormMapItem V Meta)) (field : String) (metas : MapMetasSource V)
    (i : Nat) (item : FormMapItem V Meta) (h : items[i]? = some item) :
    (item.ignored = true → (∀ r, metas = MapMetasSource.keyed r →
      ((setMetasMap items field metas).1[i]?).map (fun it => recGet it.meta field) =
        some (some MVal.undef))) ∧
    (metas = MapMetasSource.undef →
      ((setMetasMap items field metas).1[i]?).map (fun it => recGet it.meta field) =
        some (some MVal.undef)) ∧
    (∀ f, metas = MapMetasSource.fn f →
      ((setMetasMap items field metas).1[i]?).map (fun it => recGet it.meta field) =
        some (some (f item.value item.mapKey item))) ∧
    (item.ignored = false → (∀ r, metas = MapMetasSource.keyed r →
      ((setMetasMap items field metas).1[i]?).map (fun it => recGet it.meta field) =
        some (some ((recGet r item.mapKey).getD MVal.undef)))) := by
  refine ⟨?_, ?_, ?_, ?_⟩
  · intro hig r hm
    rw [setMetasMap_meta_at items field metas i item h, hm]
    simp [setMetasMapField, hig]
  · intro hm
    rw [setMetasMap_meta_at items field metas i item h, hm]
    simp [setMetasMapField]
  · intro f hm
    rw [setMetasMap_meta_at items field metas i item h, hm]
    simp [setMetasMapField]
  · intro hig r hm
    rw [setMetasMap_meta_at items field metas i item h, hm]
    simp [setMetasMapField, hig]

/-- Witness for the amended C9: a concrete ignored item under a keyed
record source receives `undefined` even though the record has a value at
its key. -/
theorem C9_amended_setMetas_witness :
    ((setMetasMap [⟨0, 5, "a", (1 : Nat), ([] : Meta), true, true⟩] "f"
        (MapMetasSource.keyed [("a", MVal.num 9)])).1[0]?).map
      (fun it => recGet it.meta "f") = some (some MVal.undef) :=
  (C9_amended_setMetas [⟨0, 5, "a", 1, [], true, true⟩] "f"
      (MapMetasSource.keyed [("a", MVal.num 9)]) 0 ⟨0, 5, "a", 1, [], true, true⟩
      (by simp)).1 rfl _ rfl

/-! ## Claim C6: list-mirror move correctness -/

section MoveLemmas

lemma jsMoveConcat_in_range {A : Type} (l : List A) (f t : Nat)
    (hf : f < l.length) (_ht : t < l.length) (hne : f ≠ t) :
    jsMoveConcat l f t = some ((insertAt t l[f] (removeAt f l)).map some) := by
  rcases Nat.lt_or_ge f t with hft | hge
  · rw [jsMoveConcat, if_pos hft]
    congr 1
    have h1 : jsSlice l 0 f = l.take f := by simp [jsSlice]
    have h2 : jsSlice l (f + 1) (t + 1) = (l.drop (f + 1)).take (t - f) := by
      rw [jsSlice, List.drop_take]
      congr 1
      omega
    have h3 : (removeAt f l).take t = l.take f ++ (l.drop (f + 1)).take (t - f) := by
      rw [removeAt, List.take_append_eq_append_take]
      congr 1
      · rw [List.take_take]
        congr 1
        omega
      · congr 1
        rw [List.length_take]
        omega
    have h4 : (removeAt f l).drop t = l.drop (t + 1) := by
      rw [removeAt, List.drop_append_eq_append_drop]
      have hnil : (l.take f).drop t = [] := by
        apply List.drop_eq_nil_of_le
        rw [List.length_take]
        omega
      rw [hnil, List.nil_append, List.drop_drop]
      congr 1
      rw [List.length_take]
      omega
    rw [List.getElem?_eq_getElem hf, insertAt, h3, h4, h1, h2]
    simp [List.map_append, List.append_assoc, jsSliceFrom, List.map_drop]
  · have htf : t < f := by omega
    rw [jsMoveConcat, if_neg (by omega), if_pos htf]
    congr 1
    have h1 : jsSlice l 0 t = l.take t := by simp [jsSlice]
    have h2 : jsSlice l t f = (l.take f).drop t := rfl
    have h3 : (removeAt f l).take t = l.take t := by
      rw [removeAt, List.take_append_eq_append_take]
      have hz : t - (l.take f).length = 0 := by
        rw [List.length_take]
        omega
      rw [hz, List.take_zero, List.append_nil, List.take_take]
      congr 1
      omega
    have h4 : (removeAt f l).drop t = (l.take f).drop t ++ l.drop (f + 1) := by
      rw [removeAt, List.drop_append_eq_append_drop]
      have hz : t - (l.take f).length = 0 := by
        rw [List.length_take]
        omega
      rw [hz, List.drop_zero]
    rw [List.getElem?_eq_getElem hf, insertAt, h3, h4, h1, h2]
    simp [List.map_append, List.append_assoc, jsSliceFrom, List.map_drop]

lemma seqOptions_map_some {A : Type} : ∀ (l : List A), seqOptions (l.map some) = some l
  | [] => rfl
  | a :: rest => by simp [seqOptions, seqOptions_map_some rest]

lemma moveItemArray_in_range {V M : Type} (items : List (FormArrayItem V M)) (f t : Nat)
    (hf : f < items.length) (ht : t < items.length) (hne : f ≠ t) :
    moveItemArray items f t =
      some (updateItemsArray (insertAt t items[f] (removeAt f items))) := by
  rw [moveItemArray, jsMoveConcat_in_range items f t hf ht hne]
  simp [seqOptions_map_some]

lemma reindexFrom_getElem {V M : Type} :
    ∀ (l : List (FormArrayItem V M)) (off i : Nat),
    (reindexFrom off l)[i]? = (l[i]?).map (fun it => { it with index := off + i })
  | [], off, i => by simp [reindexFrom]
  | item :: rest, off, 0 => by simp [reindexFrom]
  | item :: rest, off, (i + 1) => by
    simp only [reindexFrom, List.getElem?_cons_succ, reindexFrom_getElem rest (off + 1) i]
    have harith : off + 1 + i = off + (i + 1) := by omega
    rw [harith]

lemma reindexFrom_map_kvm {V M : Type} :
    ∀ (l : List (FormArrayItem V M)) (i : Nat),
    (reindexFrom i l).map (fun it => (it.key, it.value, it.meta)) =
      l.map (fun it => (it.key, it.value, it.meta))
  | [], _ => rfl
  | item :: rest, i => by
    simp [reindexFrom, reindexFrom_map_kvm rest (i + 1)]

lemma insertAt_getElem_self {A : Type} (l : List A) (t : Nat) (x : A) (h : t ≤ l.length) :
    (insertAt t x l)[t]? = some x := by
  rw [insertAt]
  have hlen : (l.take t).length = t := by
    rw [List.length_take]
    omega
  rw [List.getElem?_append_right (by omega), hlen]
  simp

lemma removeAt_insertAt {A : Type} (l : List A) (t : Nat) (x : A) (h : t ≤ l.length) :
    removeAt t (insertAt t x l) = l := by
  have hlen : (l.take t).length = t := by
    rw [List.length_take]
    omega
  rw [insertAt, removeAt, List.take_append_eq_append_take, List.drop_append_eq_append_drop]
  rw [hlen, List.take_take, Nat.min_self, Nat.sub_self, List.take_zero, List.append_nil]
  have hnil : (l.take t).drop (t + 1) = [] := by
    apply List.drop_eq_nil_of_le
    omega
  rw [hnil, List.nil_append]
  have hone : t + 1 - t = 1 := by omega
  rw [hone, List.drop_one, List.tail_cons, List.take_append_drop]

lemma removeAt_map {A B : Type} (g : A → B) (n : Nat) (l : List A) :
    removeAt n (l.map g) = (removeAt n l).map g := by
  rw [removeAt, removeAt, List.map_append, List.map_take, List.map_drop]

lemma removeAt_length {A : Type} (l : List A) (n : Nat) (h : n < l.length) :
    (removeAt n l).length = l.length - 1 := by
  rw [removeAt, List.length_append, List.length_take, List.length_drop]
  omega

end MoveLemmas

/-- Claim C6: for the list mirror's `moveItem(from, to)` with both indices
in range and distinct, the committed shadow is the reindexed rotation
(erase at `from`, insert at `to`); the moved item ends at position `to`
with its key (and value and metadata) kept, its index rewritten to `to`;
and the other items keep their relative order and their keys. -/
theorem C6_move_correctness {V M : Type} (items : List (FormArrayItem V M)) (f t : Nat)
    (hf : f < items.length) (ht : t < items.length) (hne : f ≠ t) :
    moveItemArray items f t =
      some (updateItemsArray (insertAt t items[f] (removeAt f items))) ∧
    ((moveItemArray items f t).map (fun r =>
        (r.1[t]?).map (fun it => (it.key, it.value, it.meta, it.index)))) =
      some (some (items[f].key, items[f].value, items[f].meta, t)) ∧
    ((moveItemArray items f t).map (fun r =>
        (removeAt t r.1).map (fun it => (it.key, it.value, it.meta)))) =
      some ((removeAt f items).map (fun it => (it.key, it.value, it.meta))) := by
  have hmain := moveItemArray_in_range items f t hf ht hne
  have hlen : t ≤ (removeAt f items).length := by
    rw [removeAt_length items f hf]
    omega
  refine ⟨hmain, ?_, ?_⟩
  · rw [hmain]
    show some ((reindexFrom 0 (insertAt t items[f] (removeAt f items)))[t]?.map _) = _
    rw [reindexFrom_getElem, insertAt_getElem_self _ _ _ hlen]
    simp
  · rw [hmain]
    show some ((removeAt t (reindexFrom 0 (insertAt t items[f] (removeAt f items)))).map _) = _
    congr 1
    have hcomm : (removeAt t (reindexFrom 0 (insertAt t items[f] (removeAt f items)))).map
        (fun it => (it.key, it.value, it.meta)) =
        removeAt t ((reindexFrom 0 (insertAt t items[f] (removeAt f items))).map
          (fun it => (it.key, it.value, it.meta))) := (removeAt_map _ _ _).symm
    rw [hcomm, reindexFrom_map_kvm, removeAt_map, removeAt_insertAt _ _ _ hlen]

/-- Witness for C6 at the specified scenario: values `["a","b","c"]`,
`moveItem(0, 2)`; also checks concretely that the result is
`["b","c","a"]` with the `"a"` item keeping its key `1` at index `2`. -/
theorem C6_move_correctness_witness :
    ((moveItemArray ([⟨0, 1, "a", ()⟩, ⟨1, 2, "b", ()⟩, ⟨2, 3, "c", ()⟩] :
        List (FormArrayItem String Unit)) 0 2).map (fun r =>
        (r.1[2]?).map (fun it => (it.key, it.value, it.meta, it.index)))) =
      some (some (1, "a", (), 2)) ∧
    moveItemArray ([⟨0, 1, "a", ()⟩, ⟨1, 2, "b", ()⟩, ⟨2, 3, "c", ()⟩] :
        List (FormArrayItem String Unit)) 0 2 =
      some ([⟨0, 2, "b", ()⟩, ⟨1, 3, "c", ()⟩, ⟨2, 1, "a", ()⟩], ["b", "c", "a"]) :=
  ⟨(C6_move_correctness [⟨0, 1, "a", ()⟩, ⟨1, 2, "b", ()⟩, ⟨2, 3, "c", ()⟩] 0 2
      (by decide) (by decide) (by decide)).2.1, by decide⟩

/-! ## Claims C3 and C7: lemmas about `tabRec`, `recSet` and `keysDedup` -/

section TabRecLemmas

variable {A : Type}

lemma recGet_tabRec (g : String → Option A) :
    ∀ (ks : List String) (k : String),
    recGet (tabRec g ks) k = if k ∈ ks then g k else none
  | [], k => by simp [tabRec, recGet]
  | q :: ks, k => by
    by_cases hq : q = k
    · subst hq
      cases hg : g q with
      | some v => simp [tabRec, hg, recGet]
      | none =>
        rw [tabRec, hg, recGet_tabRec g ks q]
        by_cases hk : q ∈ ks <;> simp [hk, hg]
    · have hiff : (k ∈ ks) ↔ (k ∈ q :: ks) := by
        rw [List.mem_cons]
        constructor
        · exact Or.inr
        · rintro (h | h)
          · exact absurd h.symm hq
          · exact h
      cases hg : g q with
      | some v =>
        rw [tabRec, hg, recGet, if_neg hq, recGet_tabRec g ks k]
        exact if_congr hiff rfl rfl
      | none =>
        rw [tabRec, hg, recGet_tabRec g ks k]
        exact if_congr hiff rfl rfl

lemma recGet_none_recSet {K B : Type} [DecidableEq K] :
    ∀ (m : List (K × B)) (k : K) (v : B), recGet m k = none → recSet m k v = m ++ [(k, v)]
  | [], _, _, _ => rfl
  | (k0, w) :: rest, k, v, h => by
    rw [recGet] at h
    by_cases hk : k0 = k
    · rw [if_pos hk] at h
      cases h
    · rw [if_neg hk] at h
      rw [recSet, if_neg hk, recGet_none_recSet rest k v h]
      simp

lemma tabRec_congr (g1 g2 : String → Option A) :
    ∀ (ks : List String), (∀ k ∈ ks, g1 k = g2 k) → tabRec g1 ks = tabRec g2 ks
  | [], _ => rfl
  | k :: ks, h => by
    have h0 := h k (List.mem_cons_self k ks)
    have ih := tabRec_congr g1 g2 ks (fun q hq => h q (List.mem_cons_of_mem _ hq))
    simp only [tabRec, h0, ih]

lemma tabRec_append (g : String → Option A) :
    ∀ (ks1 ks2 : List String), tabRec g (ks1 ++ ks2) = tabRec g ks1 ++ tabRec g ks2
  | [], ks2 => rfl
  | k :: ks1, ks2 => by
    simp only [List.cons_append, tabRec]
    cases hg : g k <;> simp [tabRec_append g ks1 ks2]

lemma recSet_tabRec_mem (g : String → Option A) :
    ∀ (ks : List String) (k : String) (v : A), ks.Nodup → k ∈ ks → (g k).isSome = true →
    recSet (tabRec g ks) k v = tabRec (fun q => if q = k then some v else g q) ks
  | [], k, _, _, hmem, _ => absurd hmem (List.not_mem_nil k)
  | q :: ks, k, v, hnd, hmem, hsome => by
    have hqnot : q ∉ ks := (List.nodup_cons.mp hnd).1
    have hnd2 : ks.Nodup := (List.nodup_cons.mp hnd).2
    rcases List.mem_cons.mp hmem with hqk | hks
    · subst hqk
      obtain ⟨w, hw⟩ := Option.isSome_iff_exists.mp hsome
      have hcongr : tabRec (fun x => if x = k then some v else g x) ks = tabRec g ks :=
        tabRec_congr _ _ ks (fun x hx => by
          rw [if_neg]
          intro he
          exact hqnot (he ▸ hx))
      rw [tabRec, hw]
      show recSet ((k, w) :: tabRec g ks) k v = _
      rw [recSet, if_pos rfl, tabRec]
      rw [if_pos rfl, hcongr]
    · have hqk : q ≠ k := fun he => hqnot (he ▸ hks)
      have ih := recSet_tabRec_mem g ks k v hnd2 hks hsome
      rw [tabRec, tabRec]
      rw [if_neg hqk]
      cases hg : g q with
      | some w =>
        show recSet ((q, w) :: tabRec g ks) k v = (q, w) :: _
        rw [recSet, if_neg hqk, ih]
      | none =>
        exact ih

lemma mem_keysDedup : ∀ (ks : List String) (k : String), k ∈ keysDedup ks ↔ k ∈ ks
  | [], k => by simp [keysDedup]
  | q :: ks, k => by
    rw [keysDedup]
    simp only [List.mem_cons, List.mem_filter]
    constructor
    · rintro (h | ⟨h, -⟩)
      · exact Or.inl h
      · exact Or.inr ((mem_keysDedup ks k).mp h)
    · rintro (h | h)
      · exact Or.inl h
      · by_cases hk : k = q
        · exact Or.inl hk
        · exact Or.inr ⟨(mem_keysDedup ks k).mpr h, by simp [hk]⟩

lemma nodup_keysDedup : ∀ (ks : List String), (keysDedup ks).Nodup
  | [] => List.nodup_nil
  | q :: ks => by
    rw [keysDedup, List.nodup_cons]
    refine ⟨?_, List.Nodup.filter _ (nodup_keysDedup ks)⟩
    intro hmem
    have := (List.mem_filter.mp hmem).2
    simp at this

lemma keysDedup_snoc :
    ∀ (ks : List String) (a : String),
    keysDedup (ks ++ [a]) = keysDedup ks ++ (if a ∈ ks then [] else [a])
  | [], a => by simp [keysDedup]
  | q :: ks, a => by
    rw [List.cons_append, keysDedup, keysDedup_snoc ks a, keysDedup]
    by_cases hq : a ∈ ks
    · simp [hq, List.mem_cons]
    · by_cases haq : a = q
      · subst haq
        simp [hq, List.filter_append]
      · simp [hq, haq, List.filter_append, List.mem_cons]

end TabRecLemmas

section WinnerLemmas

variable {V M : Type}

lemma firstKeyEnt_snoc_some (a : FormMapItem V M) (k : String) :
    ∀ (p : List (FormMapItem V M)) (off : Nat) (e : Nat × FormMapItem V M),
    firstKeyEnt p off k = some e → firstKeyEnt (p ++ [a]) off k = some e
  | [], off, e => by simp [firstKeyEnt]
  | item :: p, off, e => by
    rw [List.cons_append, firstKeyEnt, firstKeyEnt]
    by_cases h : item.mapKey = k
    · rw [if_pos h, if_pos h]
      exact id
    · rw [if_neg h, if_neg h]
      exact firstKeyEnt_snoc_some a k p (off + 1) e

lemma firstKeyEnt_snoc_none (a : FormMapItem V M) (k : String) :
    ∀ (p : List (FormMapItem V M)) (off : Nat),
    firstKeyEnt p off k = none →
    firstKeyEnt (p ++ [a]) off k =
      (if a.mapKey = k then some (off + p.length, a) else none)
  | [], off => by
    intro _
    rw [List.nil_append, firstKeyEnt, firstKeyEnt]
    by_cases h : a.mapKey = k
    · rw [if_pos h, if_pos h]
      simp
    · rw [if_neg h, if_neg h]
  | item :: p, off => by
    rw [firstKeyEnt]
    by_cases h : item.mapKey = k
    · rw [if_pos h]
      intro he
      cases he
    · rw [if_neg h]
      intro he
      rw [List.cons_append, firstKeyEnt, if_neg h,
        firstKeyEnt_snoc_none a k p (off + 1) he, List.length_cons]
      by_cases hak : a.mapKey = k
      · rw [if_pos hak, if_pos hak]
        congr 2
        omega
      · rw [if_neg hak, if_neg hak]

lemma firstLiveEnt_snoc_some (a : FormMapItem V M) (k : String) :
    ∀ (p : List (FormMapItem V M)) (off : Nat) (e : Nat × FormMapItem V M),
    firstLiveEnt p off k = some e → firstLiveEnt (p ++ [a]) off k = some e
  | [], off, e => by simp [firstLiveEnt]
  | item :: p, off, e => by
    rw [List.cons_append, firstLiveEnt, firstLiveEnt]
    by_cases h : item.mapKey = k ∧ item.ignored = false
    · rw [if_pos h, if_pos h]
      exact id
    · rw [if_neg h, if_neg h]
      exact firstLiveEnt_snoc_some a k p (off + 1) e

lemma firstLiveEnt_snoc_none (a : FormMapItem V M) (k : String) :
    ∀ (p : List (FormMapItem V M)) (off : Nat),
    firstLiveEnt p off k = none →
    firstLiveEnt (p ++ [a]) off k =
      (if a.mapKey = k ∧ a.ignored = false then some (off + p.length, a) else none)
  | [], off => by
    intro _
    rw [List.nil_append, firstLiveEnt, firstLiveEnt]
    by_cases h : a.mapKey = k ∧ a.ignored = false
    · rw [if_pos h, if_pos h]
      simp
    · rw [if_neg h, if_neg h]
  | item :: p, off => by
    rw [firstLiveEnt]
    by_cases h : item.mapKey = k ∧ item.ignored = false
    · rw [if_pos h]
      intro he
      cases he
    · rw [if_neg h]
      intro he
      rw [List.cons_append, firstLiveEnt, if_neg h,
        firstLiveEnt_snoc_none a k p (off + 1) he, List.length_cons]
      by_cases hak : a.mapKey = k ∧ a.ignored = false
      · rw [if_pos hak, if_pos hak]
        congr 2
        omega
      · rw [if_neg hak, if_neg hak]

lemma countKey_snoc (p : List (FormMapItem V M)) (a : FormMapItem V M) (k : String) :
    countKey (p ++ [a]) k = countKey p k + (if a.mapKey = k then 1 else 0) := by
  rw [countKey, countKey, List.filter_append, List.length_append]
  congr 1
  by_cases h : a.mapKey = k <;> simp [h]

lemma countKey_eq_zero_of_not_mem (p : List (FormMapItem V M)) (k : String)
    (h : k ∉ p.map (fun it => it.mapKey)) : countKey p k = 0 := by
  rw [countKey, List.length_eq_zero]
  rw [List.filter_eq_nil_iff]
  intro it hit
  simp only [decide_eq_true_eq]
  intro hkey
  exact h (List.mem_map.mpr ⟨it, hit, hkey⟩)

lemma countKey_pos_of_mem (p : List (FormMapItem V M)) (k : String)
    (h : k ∈ p.map (fun it => it.mapKey)) : 1 ≤ countKey p k := by
  obtain ⟨it, hit, hkey⟩ := List.mem_map.mp h
  have hmem : it ∈ p.filter (fun it => it.mapKey = k) :=
    List.mem_filter.mpr ⟨hit, by simp [hkey]⟩
  exact List.length_pos_of_mem hmem

lemma firstKeyEnt_some_spec (k : String) :
    ∀ (p : List (FormMapItem V M)) (off j : Nat) (it : FormMapItem V M),
    firstKeyEnt p off k = some (j, it) →
      off ≤ j ∧ j < off + p.length ∧ p[j - off]? = some it ∧ it.mapKey = k
  | [], off, j, it => by simp [firstKeyEnt]
  | item :: p, off, j, it => by
    rw [firstKeyEnt]
    by_cases h : item.mapKey = k
    · rw [if_pos h]
      intro he
      rw [Option.some.injEq, Prod.mk.injEq] at he
      obtain ⟨hj, hit⟩ := he
      subst hj
      subst hit
      refine ⟨Nat.le_refl _, by rw [List.length_cons]; omega, by simp, h⟩
    · rw [if_neg h]
      intro he
      obtain ⟨h1, h2, h3, h4⟩ := firstKeyEnt_some_spec k p (off + 1) j it he
      refine ⟨by omega, by rw [List.length_cons]; omega, ?_, h4⟩
      have hd : j - off = (j - (off + 1)) + 1 := by omega
      rw [hd, List.getElem?_cons_succ]
      exact h3

lemma firstLiveEnt_some_spec (k : String) :
    ∀ (p : List (FormMapItem V M)) (off j : Nat) (it : FormMapItem V M),
    firstLiveEnt p off k = some (j, it) →
      off ≤ j ∧ j < off + p.length ∧ p[j - off]? = some it ∧ it.mapKey = k ∧
        it.ignored = false
  | [], off, j, it => by simp [firstLiveEnt]
  | item :: p, off, j, it => by
    rw [firstLiveEnt]
    by_cases h : item.mapKey = k ∧ item.ignored = false
    · rw [if_pos h]
      intro he
      rw [Option.some.injEq, Prod.mk.injEq] at he
      obtain ⟨hj, hit⟩ := he
      subst hj
      subst hit
      refine ⟨Nat.le_refl _, by rw [List.length_cons]; omega, by simp, h.1, h.2⟩
    · rw [if_neg h]
      intro he
      obtain ⟨h1, h2, h3, h4, h5⟩ := firstLiveEnt_some_spec k p (off + 1) j it he
      refine ⟨by omega, by rw [List.length_cons]; omega, ?_, h4, h5⟩
      have hd : j - off = (j - (off + 1)) + 1 := by omega
      rw [hd, List.getElem?_cons_succ]
      exact h3

lemma firstKeyEnt_none_iff (k : String) :
    ∀ (p : List (FormMapItem V M)) (off : Nat),
    firstKeyEnt p off k = none ↔ k ∉ p.map (fun it => it.mapKey)
  | [], off => by simp [firstKeyEnt]
  | item :: p, off => by
    rw [firstKeyEnt]
    by_cases h : item.mapKey = k
    · rw [if_pos h]
      simp [h.symm]
    · rw [if_neg h, firstKeyEnt_none_iff k p (off + 1)]
      simp only [List.map_cons, List.mem_cons]
      constructor
      · intro hnm
        rintro (he | hm)
        · exact h he.symm
        · exact hnm hm
      · intro hnm hm
        exact hnm (Or.inr hm)

lemma firstLiveEnt_none_of_key_none (k : String) :
    ∀ (p : List (FormMapItem V M)) (off : Nat),
    firstKeyEnt p off k = none → firstLiveEnt p off k = none
  | [], off => by simp [firstLiveEnt]
  | item :: p, off => by
    rw [firstKeyEnt, firstLiveEnt]
    by_cases h : item.mapKey = k
    · rw [if_pos h]
      intro he
      cases he
    · rw [if_neg h, if_neg (fun hc => h hc.1)]
      exact firstLiveEnt_none_of_key_none k p (off + 1)

lemma firstKeyEnt_ignored_of_live_none (k : String) :
    ∀ (p : List (FormMapItem V M)) (off j : Nat) (it : FormMapItem V M),
    firstLiveEnt p off k = none → firstKeyEnt p off k = some (j, it) →
    it.ignored = true
  | [], off, j, it => by simp [firstKeyEnt]
  | item :: p, off, j, it => by
    rw [firstLiveEnt, firstKeyEnt]
    by_cases h : item.mapKey = k
    · by_cases hig : item.ignored = false
      · rw [if_pos ⟨h, hig⟩]
        intro he
        cases he
      · rw [if_neg (fun hc => hig hc.2), if_pos h]
        intro _ he
        rw [Option.some.injEq, Prod.mk.injEq] at he
        rw [← he.2]
        cases hx : item.ignored
        · exact absurd hx hig
        · rfl
    · rw [if_neg (fun hc => h hc.1), if_neg h]
      exact firstKeyEnt_ignored_of_live_none k p (off + 1) j it

end WinnerLemmas

section SpecSelLemmas

variable {V M : Type}

lemma specSelAt_mem (p : List (FormMapItem V M)) (k : String)
    (hmem : k ∈ p.map (fun it => it.mapKey)) :
    ∃ w it, winnerEnt p k = some (w, it) ∧
      specSelAt p k = some ⟨w, decide (2 ≤ countKey p k), it.ignored⟩ ∧
      specValAt p k = some it.value ∧
      p[w]? = some it ∧ it.mapKey = k ∧ w < p.length := by
  cases hl : firstLiveEnt p 0 k with
  | some e =>
    obtain ⟨w, it⟩ := e
    obtain ⟨-, hlt, hget, hkey, hig⟩ := firstLiveEnt_some_spec k p 0 w it hl
    refine ⟨w, it, ?_, ?_, ?_, ?_, hkey, by omega⟩
    · simp [winnerEnt, hl]
    · simp [specSelAt, hl, hig]
    · simp [specValAt, winnerVal, winnerEnt, hl]
    · simpa using hget
  | none =>
    cases hk : firstKeyEnt p 0 k with
    | none => exact absurd hmem ((firstKeyEnt_none_iff k p 0).mp hk)
    | some e =>
      obtain ⟨w, it⟩ := e
      obtain ⟨-, hlt, hget, hkey⟩ := firstKeyEnt_some_spec k p 0 w it hk
      have hig := firstKeyEnt_ignored_of_live_none k p 0 w it hl hk
      refine ⟨w, it, ?_, ?_, ?_, ?_, hkey, by omega⟩
      · simp [winnerEnt, hl, hk]
      · simp [specSelAt, hl, hk, hig]
      · simp [specValAt, winnerVal, winnerEnt, hl, hk]
      · simpa using hget

lemma specSelAt_not_mem (p : List (FormMapItem V M)) (k : String)
    (hnot : k ∉ p.map (fun it => it.mapKey)) :
    specSelAt p k = none ∧ specValAt p k = none := by
  have hk : firstKeyEnt p 0 k = none := (firstKeyEnt_none_iff k p 0).mpr hnot
  have hl : firstLiveEnt p 0 k = none := firstLiveEnt_none_of_key_none k p 0 hk
  constructor
  · simp [specSelAt, hl, hk]
  · simp [specValAt, winnerVal, winnerEnt, hl, hk]

lemma specs_snoc_ne (p : List (FormMapItem V M)) (a : FormMapItem V M) (k : String)
    (h : a.mapKey ≠ k) :
    specSelAt (p ++ [a]) k = specSelAt p k ∧ specValAt (p ++ [a]) k = specValAt p k := by
  have hcnt : countKey (p ++ [a]) k = countKey p k := by
    rw [countKey_snoc, if_neg h, Nat.add_zero]
  cases hl : firstLiveEnt p 0 k with
  | some e =>
    have hl2 := firstLiveEnt_snoc_some a k p 0 e hl
    constructor
    · simp [specSelAt, hl, hl2, hcnt]
    · simp [specValAt, winnerVal, winnerEnt, hl, hl2]
  | none =>
    have hl2 : firstLiveEnt (p ++ [a]) 0 k = none := by
      rw [firstLiveEnt_snoc_none a k p 0 hl, if_neg (fun hc => h hc.1)]
    cases hk : firstKeyEnt p 0 k with
    | some e =>
      have hk2 := firstKeyEnt_snoc_some a k p 0 e hk
      constructor
      · simp [specSelAt, hl, hl2, hk, hk2, hcnt]
      · simp [specValAt, winnerVal, winnerEnt, hl, hl2, hk, hk2]
    | none =>
      have hk2 : firstKeyEnt (p ++ [a]) 0 k = none := by
        rw [firstKeyEnt_snoc_none a k p 0 hk, if_neg h]
      constructor
      · simp [specSelAt, hl, hl2, hk, hk2]
      · simp [specValAt, winnerVal, winnerEnt, hl, hl2, hk, hk2]

lemma specs_snoc_new (p : List (FormMapItem V M)) (a : FormMapItem V M)
    (hnot : a.mapKey ∉ p.map (fun it => it.mapKey)) :
    specSelAt (p ++ [a]) a.mapKey = some ⟨p.length, false, a.ignored⟩ ∧
    specValAt (p ++ [a]) a.mapKey = some a.value := by
  have hk : firstKeyEnt p 0 a.mapKey = none := (firstKeyEnt_none_iff _ p 0).mpr hnot
  have hl : firstLiveEnt p 0 a.mapKey = none := firstLiveEnt_none_of_key_none _ p 0 hk
  have hcnt : countKey (p ++ [a]) a.mapKey = 1 := by
    rw [countKey_snoc, countKey_eq_zero_of_not_mem p _ hnot, if_pos rfl]
  have hk2 : firstKeyEnt (p ++ [a]) 0 a.mapKey = some (p.length, a) := by
    rw [firstKeyEnt_snoc_none a _ p 0 hk, if_pos rfl, Nat.zero_add]
  cases hig : a.ignored with
  | false =>
    have hl2 : firstLiveEnt (p ++ [a]) 0 a.mapKey = some (p.length, a) := by
      rw [firstLiveEnt_snoc_none a _ p 0 hl, if_pos ⟨rfl, hig⟩, Nat.zero_add]
    constructor
    · simp [specSelAt, hl2, hcnt]
    · simp [specValAt, winnerVal, winnerEnt, hl2]
  | true =>
    have hl2 : firstLiveEnt (p ++ [a]) 0 a.mapKey = none := by
      rw [firstLiveEnt_snoc_none a _ p 0 hl]
      rw [if_neg (fun hc => by simp [hig] at hc)]
    constructor
    · simp [specSelAt, hl2, hk2, hcnt]
    · simp [specValAt, winnerVal, winnerEnt, hl2, hk2]

lemma specs_snoc_takeover (p : List (FormMapItem V M)) (a : FormMapItem V M)
    (hmem : a.mapKey ∈ p.map (fun it => it.mapKey))
    (hl : firstLiveEnt p 0 a.mapKey = none) (hai : a.ignored = false) :
    specSelAt (p ++ [a]) a.mapKey = some ⟨p.length, true, false⟩ ∧
    specValAt (p ++ [a]) a.mapKey = some a.value := by
  have hl2 : firstLiveEnt (p ++ [a]) 0 a.mapKey = some (p.length, a) := by
    rw [firstLiveEnt_snoc_none a _ p 0 hl, if_pos ⟨rfl, hai⟩, Nat.zero_add]
  have hcnt : 2 ≤ countKey (p ++ [a]) a.mapKey := by
    rw [countKey_snoc, if_pos rfl]
    have := countKey_pos_of_mem p _ hmem
    omega
  constructor
  · simp [specSelAt, hl2, decide_eq_true hcnt]
  · simp [specValAt, winnerVal, winnerEnt, hl2]

lemma specs_snoc_keep (p : List (FormMapItem V M)) (a : FormMapItem V M)
    (w : Nat) (it : FormMapItem V M)
    (hwin : winnerEnt p a.mapKey = some (w, it))
    (hcase : a.ignored = true ∨ firstLiveEnt p 0 a.mapKey ≠ none) :
    specSelAt (p ++ [a]) a.mapKey = some ⟨w, true, it.ignored⟩ ∧
    specValAt (p ++ [a]) a.mapKey = specValAt p a.mapKey := by
  cases hl : firstLiveEnt p 0 a.mapKey with
  | some e =>
    have hwe : e = (w, it) := by
      have h2 : winnerEnt p a.mapKey = some e := by simp [winnerEnt, hl]
      rw [hwin] at h2
      exact (Option.some.injEq _ _).mp h2.symm
    subst hwe
    have hl2 := firstLiveEnt_snoc_some a _ p 0 (w, it) hl
    obtain ⟨-, -, hget, hkey, hig⟩ := firstLiveEnt_some_spec _ p 0 w it hl
    have hmem : a.mapKey ∈ p.map (fun x => x.mapKey) :=
      List.mem_map.mpr ⟨it, List.getElem?_mem (by simpa using hget), hkey⟩
    have hcnt : 2 ≤ countKey (p ++ [a]) a.mapKey := by
      rw [countKey_snoc, if_pos rfl]
      have := countKey_pos_of_mem p _ hmem
      omega
    constructor
    · simp [specSelAt, hl2, decide_eq_true hcnt, hig]
    · simp [specValAt, winnerVal, winnerEnt, hl, hl2]
  | none =>
    have hai : a.ignored = true := by
      rcases hcase with h | h
      · exact h
      · exact absurd hl h
    have hk : firstKeyEnt p 0 a.mapKey = some (w, it) := by
      simpa [winnerEnt, hl] using hwin
    have hl2 : firstLiveEnt (p ++ [a]) 0 a.mapKey = none := by
      rw [firstLiveEnt_snoc_none a _ p 0 hl]
      rw [if_neg (fun hc => by simp [hai] at hc)]
    have hk2 := firstKeyEnt_snoc_some a _ p 0 (w, it) hk
    obtain ⟨-, -, hget, hkey⟩ := firstKeyEnt_some_spec _ p 0 w it hk
    have hig := firstKeyEnt_ignored_of_live_none _ p 0 w it hl hk
    have hmem : a.mapKey ∈ p.map (fun x => x.mapKey) :=
      List.mem_map.mpr ⟨it, List.getElem?_mem (by simpa using hget), hkey⟩
    have hcnt : 2 ≤ countKey (p ++ [a]) a.mapKey := by
      rw [countKey_snoc, if_pos rfl]
      have := countKey_pos_of_mem p _ hmem
      omega
    constructor
    · simp [specSelAt, hl2, hk2, decide_eq_true hcnt, hig]
    · simp [specValAt, winnerVal, winnerEnt, hl, hl2, hk, hk2]

end SpecSelLemmas

section SelPassSpec

variable {V M : Type}

lemma selPass_spec :
    ∀ (rest p : List (FormMapItem V M)),
    selPass rest p.length (specSel p) (specVals p) =
      (specSel (p ++ rest), specVals (p ++ rest))
  | [], p => by simp [selPass]
  | a :: rest, p => by
    have hlen : p.length + 1 = (p ++ [a]).length := by simp
    have happ : (p ++ [a]) ++ rest = p ++ (a :: rest) := by
      rw [List.append_assoc, List.singleton_append]
    by_cases hmem : a.mapKey ∈ p.map (fun it => it.mapKey)
    · obtain ⟨w, it, hwin, hsel, hval, hget, hkey, hlt⟩ := specSelAt_mem p a.mapKey hmem
      have hdd : keysDedup ((p ++ [a]).map (fun x => x.mapKey)) =
          keysDedup (p.map (fun x => x.mapKey)) := by
        rw [List.map_append]
        show keysDedup (_ ++ [a.mapKey]) = _
        rw [keysDedup_snoc, if_pos hmem, List.append_nil]
      have hsel_get : recGet (specSel p) a.mapKey =
          some ⟨w, decide (2 ≤ countKey p a.mapKey), it.ignored⟩ := by
        rw [specSel, recGet_tabRec, if_pos ((mem_keysDedup _ _).mpr hmem), hsel]
      simp only [selPass, hsel_get]
      by_cases hc : a.ignored = false ∧ it.ignored = true
      · have hlivenone : firstLiveEnt p 0 a.mapKey = none := by
          cases hl : firstLiveEnt p 0 a.mapKey with
          | none => rfl
          | some e =>
            have h2 : winnerEnt p a.mapKey = some e := by simp [winnerEnt, hl]
            rw [hwin] at h2
            have he : e = (w, it) := ((Option.some.injEq _ _).mp h2).symm
            obtain ⟨-, -, -, -, hig⟩ := firstLiveEnt_some_spec _ p 0 e.1 e.2
              (by rw [← hl])
            rw [he] at hig
            rw [hc.2] at hig
            cases hig
        have hstep := specs_snoc_takeover p a hmem hlivenone hc.1
        rw [if_pos hc]
        have hRHS : specSel (p ++ [a]) =
            tabRec (fun q => if q = a.mapKey then some ⟨p.length, true, false⟩
                else specSelAt p q)
              (keysDedup (p.map (fun x => x.mapKey))) := by
          rw [specSel, hdd]
          refine tabRec_congr _ _ _ (fun q hq => ?_)
          by_cases hqk : q = a.mapKey
          · subst hqk
            rw [if_pos rfl, hstep.1]
          · rw [if_neg hqk]
            exact (specs_snoc_ne p a q (fun he => hqk he.symm)).1
        have hLHS : recSet (specSel p) a.mapKey ⟨p.length, true, false⟩ =
            tabRec (fun q => if q = a.mapKey then some ⟨p.length, true, false⟩
                else specSelAt p q)
              (keysDedup (p.map (fun x => x.mapKey))) := by
          rw [specSel]
          exact recSet_tabRec_mem _ _ _ _ (nodup_keysDedup _)
            ((mem_keysDedup _ _).mpr hmem) (by rw [hsel]; rfl)
        have hVRHS : specVals (p ++ [a]) =
            tabRec (fun q => if q = a.mapKey then some a.value else specValAt p q)
              (keysDedup (p.map (fun x => x.mapKey))) := by
          rw [specVals, hdd]
          refine tabRec_congr _ _ _ (fun q hq => ?_)
          by_cases hqk : q = a.mapKey
          · subst hqk
            rw [if_pos rfl, hstep.2]
          · rw [if_neg hqk]
            exact (specs_snoc_ne p a q (fun he => hqk he.symm)).2
        have hVLHS : recSet (specVals p) a.mapKey a.value =
            tabRec (fun q => if q = a.mapKey then some a.value else specValAt p q)
              (keysDedup (p.map (fun x => x.mapKey))) := by
          rw [specVals]
          exact recSet_tabRec_mem _ _ _ _ (nodup_keysDedup _)
            ((mem_keysDedup _ _).mpr hmem) (by rw [hval]; rfl)
        rw [hLHS, ← hRHS, hVLHS, ← hVRHS, hlen, selPass_spec rest (p ++ [a]), happ]
      · have hcase : a.ignored = true ∨ firstLiveEnt p 0 a.mapKey ≠ none := by
          by_cases ha : a.ignored = false
          · right
            have hif : it.ignored = false := by
              cases hx : it.ignored
              · rfl
              · exact absurd ⟨ha, hx⟩ hc
            intro hl
            have hk : firstKeyEnt p 0 a.mapKey = some (w, it) := by
              simpa [winnerEnt, hl] using hwin
            have hcontra := firstKeyEnt_ignored_of_live_none _ p 0 w it hl hk
            rw [hif] at hcontra
            cases hcontra
          · left
            cases hx : a.ignored
            · exact absurd hx ha
            · rfl
        have hstep := specs_snoc_keep p a w it hwin hcase
        rw [if_neg hc]
        have hRHS : specSel (p ++ [a]) =
            tabRec (fun q => if q = a.mapKey then some ⟨w, true, it.ignored⟩
                else specSelAt p q)
              (keysDedup (p.map (fun x => x.mapKey))) := by
          rw [specSel, hdd]
          refine tabRec_congr _ _ _ (fun q hq => ?_)
          by_cases hqk : q = a.mapKey
          · subst hqk
            rw [if_pos rfl, hstep.1]
          · rw [if_neg hqk]
            exact (specs_snoc_ne p a q (fun he => hqk he.symm)).1
        have hLHS : recSet (specSel p) a.mapKey ⟨w, true, it.ignored⟩ =
            tabRec (fun q => if q = a.mapKey then some ⟨w, true, it.ignored⟩
                else specSelAt p q)
              (keysDedup (p.map (fun x => x.mapKey))) := by
          rw [specSel]
          exact recSet_tabRec_mem _ _ _ _ (nodup_keysDedup _)
            ((mem_keysDedup _ _).mpr hmem) (by rw [hsel]; rfl)
        have hVals : specVals (p ++ [a]) = specVals p := by
          rw [specVals, hdd, specVals]
          refine tabRec_congr _ _ _ (fun q hq => ?_)
          by_cases hqk : q = a.mapKey
          · subst hqk
            exact hstep.2
          · exact (specs_snoc_ne p a q (fun he => hqk he.symm)).2
        rw [hLHS, ← hRHS, hlen, ← hVals, selPass_spec rest (p ++ [a]), happ]
    · have hsel_get : recGet (specSel p) a.mapKey = none := by
        rw [specSel, recGet_tabRec,
          if_neg (fun hmm => hmem ((mem_keysDedup _ _).mp hmm))]
      simp only [selPass, hsel_get]
      have hstep := specs_snoc_new p a hmem
      have hvals_get : recGet (specVals p) a.mapKey = none := by
        rw [specVals, recGet_tabRec,
          if_neg (fun hmm => hmem ((mem_keysDedup _ _).mp hmm))]
      have hddnew : keysDedup ((p ++ [a]).map (fun x => x.mapKey)) =
          keysDedup (p.map (fun x => x.mapKey)) ++ [a.mapKey] := by
        rw [List.map_append]
        show keysDedup (_ ++ [a.mapKey]) = _
        rw [keysDedup_snoc, if_neg hmem]
      have hSel : recSet (specSel p) a.mapKey ⟨p.length, false, a.ignored⟩ =
          specSel (p ++ [a]) := by
        rw [recGet_none_recSet _ _ _ hsel_get, specSel, specSel, hddnew, tabRec_append]
        congr 1
        · exact tabRec_congr _ _ _ (fun q hq =>
            ((specs_snoc_ne p a q
              (fun he => hmem (he ▸ (mem_keysDedup _ _).mp hq))).1).symm)
        · simp [tabRec, hstep.1]
      have hVals : recSet (specVals p) a.mapKey a.value = specVals (p ++ [a]) := by
        rw [recGet_none_recSet _ _ _ hvals_get, specVals, specVals, hddnew, tabRec_append]
        congr 1
        · exact tabRec_congr _ _ _ (fun q hq =>
            ((specs_snoc_ne p a q
              (fun he => hmem (he ▸ (mem_keysDedup _ _).mp hq))).2).symm)
        · simp [tabRec, hstep.2]
      rw [hSel, hVals, hlen, selPass_spec rest (p ++ [a]), happ]

lemma selPass_closed (items : List (FormMapItem V M)) :
    selPass items 0 [] [] = (specSel items, specVals items) := by
  have h := selPass_spec items []
  simpa [specSel, specVals, keysDedup, tabRec] using h

lemma getFixedItemsValues_eq (items : List (FormMapItem V M)) :
    getFixedItemsValues items = (fixPass2 (specSel items) 0 items, specVals items) := by
  rw [getFixedItemsValues, selPass_closed]

end SelPassSpec

/-- Claim C3: in the duplicate resolution pass, writing `k` for an item's
`mapKey`, the winner of the `k` group is the earliest non-ignored item, or
the first of the group when all are ignored (`winnerIdx`); after the pass
the winner has `ignored = false` and every other group member has
`ignored = true`; a member of a group of two or more is flagged
`duplicated`; each member's `index` is rewritten to its position and its
`key`, `mapKey`, `value` and `meta` are kept; and the derived external
record maps `k` to exactly the winner's value. -/
theorem C3_duplicate_resolution {V M : Type} (items : List (FormMapItem V M))
    (i : Nat) (item : FormMapItem V M) (h : items[i]? = some item) :
    (winnerIdx items item.mapKey = some i →
      (getFixedItemsValues items).1[i]? =
        some { item with
          index := i
          duplicated := decide (2 ≤ countKey items item.mapKey)
          ignored := false }) ∧
    (winnerIdx items item.mapKey ≠ some i →
      (getFixedItemsValues items).1[i]? =
        some { item with
          index := i
          duplicated := decide (2 ≤ countKey items item.mapKey)
          ignored := true }) ∧
    recGet (getFixedItemsValues items).2 item.mapKey = winnerVal items item.mapKey := by
  have hmem : item.mapKey ∈ items.map (fun it => it.mapKey) :=
    List.mem_map.mpr ⟨item, List.getElem?_mem h, rfl⟩
  obtain ⟨w, wit, hwin, hsel, hval, hget, hkey, hlt⟩ := specSelAt_mem items item.mapKey hmem
  have hout : (getFixedItemsValues items).1[i]? =
      some (fixItem (specSel items) i item) := by
    rw [getFixedItemsValues_eq]
    show (fixPass2 _ 0 items)[i]? = _
    rw [fixPass2_getElem, h]
    simp
  have hselget : recGet (specSel items) item.mapKey =
      some ⟨w, decide (2 ≤ countKey items item.mapKey), wit.ignored⟩ := by
    rw [specSel, recGet_tabRec, if_pos ((mem_keysDedup _ _).mpr hmem), hsel]
  have hfix : fixItem (specSel items) i item =
      { item with
        index := i
        duplicated := decide (2 ≤ countKey items item.mapKey)
        ignored := decide (w ≠ i) } := by
    rw [fixItem, hselget]
  have hwidx : winnerIdx items item.mapKey = some w := by
    rw [winnerIdx, hwin]
    rfl
  refine ⟨?_, ?_, ?_⟩
  · intro hw
    rw [hwidx, Option.some.injEq] at hw
    rw [hout, hfix, hw]
    simp
  · intro hw
    rw [hwidx] at hw
    have hwi : w ≠ i := fun he => hw (by rw [he])
    rw [hout, hfix]
    simp [hwi]
  · rw [getFixedItemsValues_eq]
    show recGet (specVals items) _ = _
    rw [specVals, recGet_tabRec, if_pos ((mem_keysDedup _ _).mpr hmem)]
    rfl

/-- Witness for C3 at the specified scenario: record `{x:1, y:2}` and
`appendItem("x", 3)` — the appended item stays ignored and is flagged
duplicated (as is the original `x` item), and the derived record remains
`{x:1, y:2}`. -/
theorem C3_duplicate_resolution_witness :
    ((getFixedItemsValues ([⟨0, 100, "x", 1, (), false, false⟩,
        ⟨1, 101, "y", 2, (), false, false⟩,
        ⟨2, 102, "x", 3, (), false, true⟩] : List (FormMapItem Nat Unit))).1[2]? =
      some { (⟨2, 102, "x", 3, (), false, true⟩ : FormMapItem Nat Unit) with
        index := 2
        duplicated := decide (2 ≤ countKey ([⟨0, 100, "x", 1, (), false, false⟩,
          ⟨1, 101, "y", 2, (), false, false⟩,
          ⟨2, 102, "x", 3, (), false, true⟩] : List (FormMapItem Nat Unit)) "x")
        ignored := true }) ∧
    appendItemMap (⟨[⟨0, 100, "x", 1, (), false, false⟩,
        ⟨1, 101, "y", 2, (), false, false⟩], 102, 200⟩ : MapState Nat Unit) "x" 3 none () =
      (⟨[⟨0, 100, "x", 1, (), true, false⟩, ⟨1, 101, "y", 2, (), false, false⟩,
        ⟨2, 102, "x", 3, (), true, true⟩], 200, 201⟩, [("x", 1), ("y", 2)]) :=
  ⟨(C3_duplicate_resolution _ 2 _ (by decide)).2.1 (by decide), by decide⟩

/-! ## Claim C7: lemmas about the fixed output -/

section OutLemmas

variable {V M : Type}

lemma fixItem_mapKey (sel : List (String × Sel)) (idx : Nat) (item : FormMapItem V M) :
    (fixItem sel idx item).mapKey = item.mapKey := by
  rw [fixItem]
  cases recGet sel item.mapKey <;> rfl

lemma fixItem_value (sel : List (String × Sel)) (idx : Nat) (item : FormMapItem V M) :
    (fixItem sel idx item).value = item.value := by
  rw [fixItem]
  cases recGet sel item.mapKey <;> rfl

lemma fixPass2_map_mapKey (sel : List (String × Sel)) :
    ∀ (l : List (FormMapItem V M)) (off : Nat),
    (fixPass2 sel off l).map (fun it => it.mapKey) = l.map (fun it => it.mapKey)
  | [], _ => rfl
  | item :: l, off => by
    simp [fixPass2, fixItem_mapKey, fixPass2_map_mapKey sel l (off + 1)]

lemma countKey_eq_countP (l : List (FormMapItem V M)) (k : String) :
    countKey l k = List.countP (fun s => decide (s = k)) (l.map (fun it => it.mapKey)) := by
  rw [countKey, ← List.countP_eq_length_filter, List.countP_map]
  rfl

lemma countKey_fixPass2 (sel : List (String × Sel)) (l : List (FormMapItem V M))
    (off : Nat) (k : String) : countKey (fixPass2 sel off l) k = countKey l k := by
  rw [countKey_eq_countP, countKey_eq_countP, fixPass2_map_mapKey]

lemma firstLiveEnt_fixPass2 (sel : List (String × Sel)) (k : String) (s : Sel)
    (hs : recGet sel k = some s) :
    ∀ (l : List (FormMapItem V M)) (off : Nat),
    firstLiveEnt (fixPass2 sel off l) off k =
      (if off ≤ s.index then
        (l[s.index - off]?).bind (fun it =>
          if it.mapKey = k then some (s.index, fixItem sel s.index it) else none)
      else none)
  | [], off => by simp [fixPass2, firstLiveEnt]
  | item :: l, off => by
    rw [fixPass2, firstLiveEnt]
    by_cases hkey : item.mapKey = k
    · have hsit : recGet sel item.mapKey = some s := by rw [hkey]; exact hs
      have hfix : (fixItem sel off item).ignored = decide (s.index ≠ off) := by
        rw [fixItem, hsit]
      by_cases hidx : s.index = off
      · have hcond : (fixItem sel off item).mapKey = k ∧
            (fixItem sel off item).ignored = false := by
          refine ⟨by rw [fixItem_mapKey]; exact hkey, ?_⟩
          rw [hfix, hidx]
          simp
        rw [if_pos hcond, if_pos (by omega), hidx]
        simp [hkey]
      · have hcond : ¬((fixItem sel off item).mapKey = k ∧
            (fixItem sel off item).ignored = false) := by
          rintro ⟨-, hig⟩
          rw [hfix] at hig
          simp only [decide_eq_false_iff_not, not_not] at hig
          exact hidx hig
        rw [if_neg hcond, firstLiveEnt_fixPass2 sel k s hs l (off + 1)]
        by_cases hle : off + 1 ≤ s.index
        · rw [if_pos hle, if_pos (by omega)]
          have hd : s.index - off = (s.index - (off + 1)) + 1 := by omega
          rw [hd, List.getElem?_cons_succ]
        · rw [if_neg hle, if_neg (by omega)]
    · have hcond : ¬((fixItem sel off item).mapKey = k ∧
          (fixItem sel off item).ignored = false) := by
        rintro ⟨hc, -⟩
        rw [fixItem_mapKey] at hc
        exact hkey hc
      rw [if_neg hcond, firstLiveEnt_fixPass2 sel k s hs l (off + 1)]
      by_cases hle : off + 1 ≤ s.index
      · rw [if_pos hle, if_pos (by omega)]
        have hd : s.index - off = (s.index - (off + 1)) + 1 := by omega
        rw [hd, List.getElem?_cons_succ]
      · rw [if_neg hle]
        by_cases heq : s.index = off
        · rw [if_pos (by omega), heq]
          simp [hkey]
        · rw [if_neg (by omega)]

lemma specs_out (items : List (FormMapItem V M)) (k : String) (w : Nat)
    (wit : FormMapItem V M) (hwin : winnerEnt items k = some (w, wit))
    (hmem : k ∈ items.map (fun it => it.mapKey)) :
    specSelAt (fixPass2 (specSel items) 0 items) k =
      some ⟨w, decide (2 ≤ countKey items k), false⟩ ∧
    specValAt (fixPass2 (specSel items) 0 items) k = some wit.value := by
  obtain ⟨w2, wit2, hwin2, hsel, hval, hget, hkey, hlt⟩ := specSelAt_mem items k hmem
  rw [hwin] at hwin2
  rw [Option.some.injEq, Prod.mk.injEq] at hwin2
  obtain ⟨hw2, hwit2⟩ := hwin2
  subst hw2
  subst hwit2
  have hselget : recGet (specSel items) k =
      some ⟨w, decide (2 ≤ countKey items k), wit.ignored⟩ := by
    rw [specSel, recGet_tabRec, if_pos ((mem_keysDedup _ _).mpr hmem), hsel]
  have hlive : firstLiveEnt (fixPass2 (specSel items) 0 items) 0 k =
      some (w, fixItem (specSel items) w wit) := by
    rw [firstLiveEnt_fixPass2 (specSel items) k _ hselget items 0,
      if_pos (Nat.zero_le _)]
    show (items[w]?).bind _ = _
    rw [hget]
    simp [hkey]
  have hcnt : countKey (fixPass2 (specSel items) 0 items) k = countKey items k :=
    countKey_fixPass2 _ _ _ _
  constructor
  · simp [specSelAt, hlive, hcnt]
  · simp [specValAt, winnerVal, winnerEnt, hlive, fixItem_value]

end OutLemmas

/-- Claim C7: the duplicate resolution pass is idempotent — applying
`getFixedItemsValues` to its own output yields the identical item sequence
and identical derived record — and in the output every `mapKey` group has
exactly one non-ignored item: non-ignored items with equal `mapKey`
coincide, and every item's group has a non-ignored member. -/
theorem C7_resolution_idempotent {V M : Type} (items : List (FormMapItem V M)) :
    getFixedItemsValues ((getFixedItemsValues items).1) = getFixedItemsValues items ∧
    (∀ (i j : Nat) (a b : FormMapItem V M),
      (getFixedItemsValues items).1[i]? = some a →
      (getFixedItemsValues items).1[j]? = some b →
      a.mapKey = b.mapKey → a.ignored = false → b.ignored = false → i = j) ∧
    (∀ (i : Nat) (a : FormMapItem V M),
      (getFixedItemsValues items).1[i]? = some a →
      ∃ (j : Nat) (b : FormMapItem V M),
        (getFixedItemsValues items).1[j]? = some b ∧
        b.mapKey = a.mapKey ∧ b.ignored = false) := by
  have hout : ∀ (i : Nat) (a : FormMapItem V M),
      (getFixedItemsValues items).1[i]? = some a →
      ∃ item, items[i]? = some item ∧ a = fixItem (specSel items) i item := by
    intro i a ha
    rw [getFixedItemsValues_eq] at ha
    rw [show ((fixPass2 (specSel items) 0 items, specVals items)).1 =
      fixPass2 (specSel items) 0 items from rfl] at ha
    rw [fixPass2_getElem] at ha
    cases hi : items[i]? with
    | none => rw [hi] at ha; cases ha
    | some item =>
      rw [hi] at ha
      simp only [Option.map_some', Option.some.injEq, Nat.zero_add] at ha
      exact ⟨item, rfl, ha.symm⟩
  have hflag : ∀ (i : Nat) (item : FormMapItem V M), items[i]? = some item →
      ∃ w wit, winnerEnt items item.mapKey = some (w, wit) ∧
        fixItem (specSel items) i item =
          { item with
            index := i
            duplicated := decide (2 ≤ countKey items item.mapKey)
            ignored := decide (w ≠ i) } := by
    intro i item hi
    have hmem : item.mapKey ∈ items.map (fun it => it.mapKey) :=
      List.mem_map.mpr ⟨item, List.getElem?_mem hi, rfl⟩
    obtain ⟨w, wit, hwin, hsel, hval, hget, hkey, hlt⟩ :=
      specSelAt_mem items item.mapKey hmem
    refine ⟨w, wit, hwin, ?_⟩
    have hselget : recGet (specSel items) item.mapKey =
        some ⟨w, decide (2 ≤ countKey items item.mapKey), wit.ignored⟩ := by
      rw [specSel, recGet_tabRec, if_pos ((mem_keysDedup _ _).mpr hmem), hsel]
    rw [fixItem, hselget]
  refine ⟨?_, ?_, ?_⟩
  · -- idempotence
    have hmapeq : (fixPass2 (specSel items) 0 items).map (fun it => it.mapKey) =
        items.map (fun it => it.mapKey) := fixPass2_map_mapKey _ items 0
    have hvals : specVals (fixPass2 (specSel items) 0 items) = specVals items := by
      rw [specVals, specVals, hmapeq]
      refine tabRec_congr _ _ _ (fun q hq => ?_)
      have hqmem : q ∈ items.map (fun it => it.mapKey) := (mem_keysDedup _ _).mp hq
      obtain ⟨w, wit, hwin, hsel, hval, hget, hkey, hlt⟩ := specSelAt_mem items q hqmem
      rw [(specs_out items q w wit hwin hqmem).2, hval]
    have hitems : fixPass2 (specSel (fixPass2 (specSel items) 0 items)) 0
        (fixPass2 (specSel items) 0 items) = fixPass2 (specSel items) 0 items := by
      apply List.ext_getElem?
      intro n
      rw [fixPass2_getElem]
      cases hn : (fixPass2 (specSel items) 0 items)[n]? with
      | none => rfl
      | some a =>
        simp only [Option.map_some', Nat.zero_add]
        have hn2 : (getFixedItemsValues items).1[n]? = some a := by
          rw [getFixedItemsValues_eq]
          exact hn
        obtain ⟨item, hitem, haeq⟩ := hout n a hn2
        obtain ⟨w, wit, hwin, hfixeq⟩ := hflag n item hitem
        have hmem : item.mapKey ∈ items.map (fun it => it.mapKey) :=
          List.mem_map.mpr ⟨item, List.getElem?_mem hitem, rfl⟩
        have hmem2 : item.mapKey ∈
            (fixPass2 (specSel items) 0 items).map (fun it => it.mapKey) := by
          rw [hmapeq]
          exact hmem
        have hselout : recGet (specSel (fixPass2 (specSel items) 0 items)) item.mapKey =
            some ⟨w, decide (2 ≤ countKey items item.mapKey), false⟩ := by
          rw [specSel, recGet_tabRec, if_pos ((mem_keysDedup _ _).mpr hmem2),
            (specs_out items item.mapKey w wit hwin hmem).1]
        have hamk : a.mapKey = item.mapKey := by
          rw [haeq, fixItem_mapKey]
        have hfix2 : fixItem (specSel (fixPass2 (specSel items) 0 items)) n a =
            { a with
              index := n
              duplicated := decide (2 ≤ countKey items item.mapKey)
              ignored := decide (w ≠ n) } := by
          rw [fixItem, hamk, hselout]
        rw [hfix2, haeq, hfixeq]
    rw [getFixedItemsValues_eq items]
    show getFixedItemsValues (fixPass2 (specSel items) 0 items) = _
    rw [getFixedItemsValues_eq, hitems, hvals]
  · -- uniqueness
    intro i j a b ha hb hkeq higa higb
    obtain ⟨ia, hia, haeq⟩ := hout i a ha
    obtain ⟨ib, hib, hbeq⟩ := hout j b hb
    obtain ⟨wa, wita, hwina, hfa⟩ := hflag i ia hia
    obtain ⟨wb, witb, hwinb, hfb⟩ := hflag j ib hib
    have hka : a.mapKey = ia.mapKey := by rw [haeq, fixItem_mapKey]
    have hkb : b.mapKey = ib.mapKey := by rw [hbeq, fixItem_mapKey]
    have hwkeq : ia.mapKey = ib.mapKey := by rw [← hka, hkeq, hkb]
    rw [hwkeq] at hwina
    rw [hwinb] at hwina
    rw [Option.some.injEq, Prod.mk.injEq] at hwina
    have higa2 : decide (wa ≠ i) = false := by
      rw [haeq, hfa] at higa
      exact higa
    have higb2 : decide (wb ≠ j) = false := by
      rw [hbeq, hfb] at higb
      exact higb
    simp only [decide_eq_false_iff_not, not_not] at higa2 higb2
    omega
  · -- existence
    intro i a ha
    obtain ⟨ia, hia, haeq⟩ := hout i a ha
    obtain ⟨w, wit, hwin, hfa⟩ := hflag i ia hia
    have hmem : ia.mapKey ∈ items.map (fun it => it.mapKey) :=
      List.mem_map.mpr ⟨ia, List.getElem?_mem hia, rfl⟩
    obtain ⟨w2, wit2, hwin2, hsel, hval, hget, hkey, hlt⟩ :=
      specSelAt_mem items ia.mapKey hmem
    rw [hwin] at hwin2
    rw [Option.some.injEq, Prod.mk.injEq] at hwin2
    obtain ⟨hw2, hwit2⟩ := hwin2
    refine ⟨w, fixItem (specSel items) w wit, ?_, ?_, ?_⟩
    · rw [getFixedItemsValues_eq]
      show (fixPass2 (specSel items) 0 items)[w]? = _
      rw [fixPass2_getElem]
      rw [← hw2] at hget
      rw [← hwit2] at hget
      rw [hget]
      simp
    · rw [fixItem_mapKey]
      rw [haeq, fixItem_mapKey]
      rw [← hwit2] at hkey
      exact hkey
    · obtain ⟨wf, witf, hwinf, hff⟩ := hflag w wit (by rw [← hw2] at hget; rw [← hwit2] at hget; exact hget)
      have hkw : wit.mapKey = ia.mapKey := by rw [← hwit2] at hkey; exact hkey
      rw [hkw] at hwinf
      rw [hwin] at hwinf
      rw [Option.some.injEq, Prod.mk.injEq] at hwinf
      rw [hff]
      show decide (wf ≠ w) = false
      simp only [decide_eq_false_iff_not, not_not]
      omega

/-- Witness for C7: idempotence at a concrete all-ignored duplicate group. -/
theorem C7_resolution_idempotent_witness :
    getFixedItemsValues ((getFixedItemsValues ([⟨0, 1, "z", 7, (), false, true⟩,
        ⟨1, 2, "z", 8, (), false, true⟩] : List (FormMapItem Nat Unit))).1) =
      getFixedItemsValues ([⟨0, 1, "z", 7, (), false, true⟩,
        ⟨1, 2, "z", 8, (), false, true⟩] : List (FormMapItem Nat Unit)) :=
  (C7_resolution_idempotent _).1

end FormHooks
